import Mathlib

/-!
Verification of the borrow-lifecycle and inventory-consistency core of a
multi-branch library backend (Express + Mongoose).  The Mongoose models
(`Inventory`, `Copy`, `BorrowRecord`, `BorrowRequest`) and the controller
operations (`updateBorrowRequest`, `returnBook`, `updateBorrowRecord`,
`updateCopy`, `deleteCopy`, `findOverdue`) are shallowly embedded as pure
functions over an explicit `Store`.  Dates are natural numbers (an abstract
tick; the fixed 14-day loan period becomes the constant `loanPeriod`).
Mongoose middleware is embedded where it actually fires:

* `Copy` `post('save')` recomputes the owning inventory counts, so a
  *document* save of a copy is `copySaveExisting` (write + recount).
* `Copy.findByIdAndUpdate` and `Copy.findByIdAndUpdate`-style query writes
  bypass document middleware, so they are plain writes with no recount.
* `copy.deleteOne()` does not fire the schema's `post('remove')` hook
  (that hook only fires for `remove()`), so `deleteCopy` is a plain removal
  with no recount.
* `BorrowRecord` `pre('save')` normalizes overdue state (`recordPreSave`);
  the partial unique index on `(copyId, status = borrowed)` makes a save
  that would create a second borrowed record for one copy throw, surfaced
  by the controllers' catch-all as a 500 (`ApiError.internalError`).
* `BorrowRecord` `post('save')` pushes the loan status onto the copy via
  `findByIdAndUpdate` (again: no copy middleware, no recount).
-/

namespace Librarian

/-- Copy lifecycle status (`Copy.status` enum in the schema). -/
inductive CopyStatus where
  | available
  | borrowed
  | reserved
  | lost
  | maintenance
  deriving DecidableEq, Repr

/-- Loan status (`BorrowRecord.status` enum in the schema). -/
inductive LoanStatus where
  | borrowed
  | returned
  | overdue
  | lost
  deriving DecidableEq, Repr

/-- Borrow-request status (`BorrowRequest.status` enum in the schema). -/
inductive RequestStatus where
  | pending
  | approved
  | rejected
  | cancelled
  deriving DecidableEq, Repr

/-- Caller roles used by the controllers' scope checks. -/
inductive Role where
  | superadmin
  | admin
  | student
  | guest
  deriving DecidableEq, Repr

/-- Fee subdocument of a borrow record. -/
structure Fees where
  lateFee : Nat
  damageFee : Nat
  currency : String
  deriving DecidableEq, Repr

/-- A partial fee object supplied in a request body; `{ ...fees, ...patch }`. -/
structure FeesPatch where
  lateFee : Option Nat
  damageFee : Option Nat
  currency : Option String
  deriving DecidableEq, Repr

/-- JS object spread `{ ...f, ...p }` over the three fee fields. -/
def mergeFees (f : Fees) (p : FeesPatch) : Fees :=
  { lateFee := p.lateFee.getD f.lateFee
    damageFee := p.damageFee.getD f.damageFee
    currency := p.currency.getD f.currency }

/-- One physical copy (`Copy` model). -/
structure Copy where
  id : Nat
  inventoryId : Nat
  libraryId : Nat
  titleId : Nat
  barcode : Option String
  status : CopyStatus
  condition : String
  shelfLocation : Option String
  acquiredAt : Nat
  deriving DecidableEq, Repr

/-- Per (library, title) aggregate (`Inventory` model). -/
structure Inventory where
  id : Nat
  libraryId : Nat
  titleId : Nat
  totalCopies : Nat
  availableCopies : Nat
  deriving DecidableEq, Repr

/-- A user's borrow request (`BorrowRequest` model). -/
structure BorrowRequest where
  id : Nat
  userId : Nat
  libraryId : Nat
  titleId : Nat
  inventoryId : Option Nat
  copyId : Option Nat
  status : RequestStatus
  requestedAt : Nat
  decidedAt : Option Nat
  decidedBy : Option Nat
  notes : Option String
  deriving DecidableEq, Repr

/-- A loan (`BorrowRecord` model). -/
structure BorrowRecord where
  id : Nat
  userId : Nat
  libraryId : Nat
  titleId : Nat
  inventoryId : Nat
  copyId : Nat
  borrowDate : Nat
  dueDate : Nat
  returnDate : Option Nat
  status : LoanStatus
  approvedBy : Nat
  fees : Fees
  deriving DecidableEq, Repr

/-- The persistent store: the four collections plus a fresh-id counter
standing in for ObjectId generation. -/
structure Store where
  inventories : List Inventory
  copies : List Copy
  requests : List BorrowRequest
  records : List BorrowRecord
  nextId : Nat
  deriving DecidableEq, Repr

/-- The authenticated caller (`req.user`): id, role and, for admins, the
set of library ids they are assigned to. -/
structure Caller where
  userId : Nat
  role : Role
  libraries : List Nat
  deriving DecidableEq, Repr

/-- Errors surfaced by the embedded controllers, one constructor per
distinct failure branch in the source. -/
inductive ApiError where
  /-- 404 `... not found`. -/
  | notFound
  /-- 400 `Request has already been processed` (decision on non-pending). -/
  | alreadyProcessed
  /-- 403 `Access denied to this library`. -/
  | accessDenied
  /-- 400 `No available copies found` (approval-time availability failure). -/
  | noAvailableCopies
  /-- 400 `Book is already returned`. -/
  | alreadyReturned
  /-- 400 `Cannot delete a copy that is currently borrowed`. -/
  | cannotDeleteBorrowed
  /-- 409 `Copy with this barcode already exists in this library`. -/
  | duplicateBarcode
  /-- 500 catch-all, e.g. a duplicate-key throw from a Mongo save. -/
  | internalError
  deriving DecidableEq, Repr

/-- Result of a mutating controller call: payload or error, together with
the store as it stands when the response is sent. -/
inductive Outcome (α : Type) where
  | ok (value : α) (store : Store)
  | fail (error : ApiError) (store : Store)
  deriving DecidableEq

/-- The store a finished call leaves behind, whatever the response was. -/
def Outcome.store {α : Type} : Outcome α → Store
  | .ok _ s => s
  | .fail _ s => s

/-- `findById` on the copies collection. -/
def findCopy (s : Store) (id : Nat) : Option Copy :=
  s.copies.find? (fun c => c.id == id)

/-- `findById` on the inventories collection. -/
def findInventory (s : Store) (id : Nat) : Option Inventory :=
  s.inventories.find? (fun i => i.id == id)

/-- `findById` on the requests collection. -/
def findRequest (s : Store) (id : Nat) : Option BorrowRequest :=
  s.requests.find? (fun r => r.id == id)

/-- `findById` on the records collection. -/
def findRecord (s : Store) (id : Nat) : Option BorrowRecord :=
  s.records.find? (fun r => r.id == id)

/-- Write back a copy document (replacement by id). -/
def setCopy (s : Store) (c : Copy) : Store :=
  { s with copies := s.copies.map (fun x => if x.id == c.id then c else x) }

/-- Write back an inventory document (replacement by id). -/
def setInventory (s : Store) (i : Inventory) : Store :=
  { s with inventories := s.inventories.map (fun x => if x.id == i.id then i else x) }

/-- Write back a request document (replacement by id). -/
def setRequest (s : Store) (r : BorrowRequest) : Store :=
  { s with requests := s.requests.map (fun x => if x.id == r.id then r else x) }

/-- Write back a record document (replacement by id). -/
def setRecord (s : Store) (r : BorrowRecord) : Store :=
  { s with records := s.records.map (fun x => if x.id == r.id then r else x) }

/-- `Copy.countDocuments({ inventoryId })`. -/
def countCopies (s : Store) (invId : Nat) : Nat :=
  (s.copies.filter (fun c => c.inventoryId == invId)).length

/-- `Copy.countDocuments({ inventoryId, status: 'available' })`. -/
def countAvailableCopies (s : Store) (invId : Nat) : Nat :=
  (s.copies.filter (fun c =>
    c.inventoryId == invId && c.status == CopyStatus.available)).length

/-- `Inventory.updateCopyCounts`: recount the copies under the inventory
and save.  The inventory `pre('save')` clamp (`availableCopies` may not
exceed `totalCopies`) is applied as part of the save. -/
def updateCopyCounts (invId : Nat) (s : Store) : Store :=
  match findInventory s invId with
  | none => s
  | some inv =>
      let total := countCopies s invId
      let avail := countAvailableCopies s invId
      let avail := if avail > total then total else avail
      setInventory s { inv with totalCopies := total, availableCopies := avail }

/-- Document save of an existing copy: persist, then the copy
`post('save')` middleware recounts the owning inventory. -/
def copySaveExisting (c : Copy) (s : Store) : Store :=
  updateCopyCounts c.inventoryId (setCopy s c)

/-- `BorrowRecord` `pre('save')`: a still-borrowed, unreturned record whose
due date has passed is normalized to `overdue` before it is written. -/
def recordPreSave (now : Nat) (r : BorrowRecord) : BorrowRecord :=
  if r.status == LoanStatus.borrowed && r.returnDate == none && now > r.dueDate
  then { r with status := LoanStatus.overdue }
  else r

/-- The partial unique index on `(copyId, status)` restricted to
`status = 'borrowed'`: writing `r` violates it when another record already
holds the same copy with status `borrowed`. -/
def borrowedIndexViolation (s : Store) (r : BorrowRecord) : Bool :=
  r.status == LoanStatus.borrowed &&
    s.records.any (fun x =>
      x.id != r.id && x.copyId == r.copyId && x.status == LoanStatus.borrowed)

/-- `BorrowRecord` `post('save')`: push the loan status onto the copy via
`Copy.findByIdAndUpdate` — a query write, so no copy middleware fires and
no recount happens here. -/
def recordPostSave (r : BorrowRecord) (s : Store) : Store :=
  if r.status == LoanStatus.borrowed then
    match findCopy s r.copyId with
    | some c => setCopy s { c with status := CopyStatus.borrowed }
    | none => s
  else if r.status == LoanStatus.returned then
    match findCopy s r.copyId with
    | some c => setCopy s { c with status := CopyStatus.available }
    | none => s
  else s

/-- Document save of an existing borrow record: pre-save normalization,
unique-index check (a violation throws, caught as a 500), write,
post-save copy update. -/
def recordSaveExisting (now : Nat) (r : BorrowRecord) (s : Store) :
    Outcome BorrowRecord :=
  let r1 := recordPreSave now r
  if borrowedIndexViolation s r1 then .fail .internalError s
  else
    let s1 := setRecord s r1
    .ok r1 (recordPostSave r1 s1)

/-- Document save of a new borrow record (insertion; same middleware). -/
def recordSaveNew (now : Nat) (r : BorrowRecord) (s : Store) :
    Outcome BorrowRecord :=
  let r1 := recordPreSave now r
  if borrowedIndexViolation s r1 then .fail .internalError s
  else
    let s1 := { s with records := s.records ++ [r1], nextId := s.nextId + 1 }
    .ok r1 (recordPostSave r1 s1)

/-- `Copy.findOne({ inventoryId, status: 'available' })`: the first copy of
the request's inventory that is still available (`inventoryId` is the
request's, hence optional). -/
def findAvailableCopy (s : Store) (invId : Option Nat) : Option Copy :=
  s.copies.find? (fun c =>
    some c.inventoryId == invId && c.status == CopyStatus.available)

/-- `BorrowRecord.findOverdue`: records with status `borrowed` or `overdue`
whose due date lies strictly in the past, optionally scoped to a library,
sorted by due date.  A pure query: nothing is written. -/
def findOverdue (now : Nat) (libraryId : Option Nat) (s : Store) :
    List BorrowRecord :=
  ((s.records.filter (fun r =>
      (r.status == LoanStatus.borrowed || r.status == LoanStatus.overdue) &&
      r.dueDate < now &&
      (match libraryId with
       | some l => r.libraryId == l
       | none => true))).mergeSort (fun a b => a.dueDate ≤ b.dueDate))

/-- Fixed loan period: `dueDate = borrowDate + 14 days`. -/
def loanPeriod : Nat := 14

/-- The admin library-scope check shared by the controllers: an admin may
only act on documents of a library they are assigned to. -/
def scopeDenied (caller : Caller) (libraryId : Nat) : Bool :=
  caller.role == Role.admin && !(caller.libraries.contains libraryId)

/-- `updateBorrowRequest` (approve / reject a pending request).  On
`approved`: find an available copy (fail 400 if none), assign it, create a
`borrowed` record due in `loanPeriod`, save it, flip the copy, recount the
inventory, and finally persist the request with decider and decision time.
Every failure branch returns before any write it has not yet made. -/
def updateBorrowRequest (caller : Caller) (now : Nat) (reqId : Nat)
    (status : RequestStatus) (notes : Option String) (s : Store) :
    Outcome BorrowRequest :=
  match findRequest s reqId with
  | none => .fail .notFound s
  | some request =>
    if request.status != RequestStatus.pending then .fail .alreadyProcessed s
    else if scopeDenied caller request.libraryId then .fail .accessDenied s
    else
      let request := { request with
        status := status
        decidedBy := some caller.userId
        decidedAt := some now
        notes := match notes with
                 | some n => some n
                 | none => request.notes }
      if status == RequestStatus.approved then
        match findAvailableCopy s request.inventoryId with
        | none => .fail .noAvailableCopies s
        | some availableCopy =>
          let request := { request with copyId := some availableCopy.id }
          -- new BorrowRecord; the matched copy's inventory id is the
          -- request's inventory id (the findOne matched on it)
          let borrowRecord : BorrowRecord := {
            id := s.nextId
            userId := request.userId
            libraryId := request.libraryId
            titleId := request.titleId
            inventoryId := availableCopy.inventoryId
            copyId := availableCopy.id
            borrowDate := now
            dueDate := now + loanPeriod
            returnDate := none
            status := LoanStatus.borrowed
            approvedBy := caller.userId
            fees := { lateFee := 0, damageFee := 0, currency := "USD" } }
          match recordSaveNew now borrowRecord s with
          | .fail e s1 => .fail e s1
          | .ok _ s1 =>
            let s2 := copySaveExisting { availableCopy with status := CopyStatus.borrowed } s1
            let s3 := match request.inventoryId with
                      | some inv => updateCopyCounts inv s2
                      | none => s2
            .ok request (setRequest s3 request)
      else
        .ok request (setRequest s request)

/-- `returnBook`: mark a loan returned.  Fails 400 if the record is already
`returned` (checked before the admin scope check).  Sets status and return
date, merges fee adjustments, flips the copy back to `available` with a
recount, and saves the record. -/
def returnBook (caller : Caller) (now : Nat) (recId : Nat)
    (fees : Option FeesPatch) (s : Store) : Outcome BorrowRecord :=
  match findRecord s recId with
  | none => .fail .notFound s
  | some record =>
    if record.status == LoanStatus.returned then .fail .alreadyReturned s
    else if scopeDenied caller record.libraryId then .fail .accessDenied s
    else
      let record := { record with
        status := LoanStatus.returned
        returnDate := some now
        fees := match fees with
                | some p => mergeFees record.fees p
                | none => record.fees }
      let s1 := match findCopy s record.copyId with
                | some copy =>
                    let s1 := copySaveExisting { copy with status := CopyStatus.available } s
                    updateCopyCounts record.inventoryId s1
                | none => s
      recordSaveExisting now record s1

/-- `updateBorrowRecord` (direct record update; the mark-lost path).  There
is no conflict check: the requested status is written whatever the current
one is.  The `returned` and `lost` branches additionally flip the copy and
recount the inventory when the status actually changes. -/
def updateBorrowRecord (caller : Caller) (now : Nat) (recId : Nat)
    (status : LoanStatus) (fees : Option FeesPatch) (s : Store) :
    Outcome BorrowRecord :=
  match findRecord s recId with
  | none => .fail .notFound s
  | some record =>
    if scopeDenied caller record.libraryId then .fail .accessDenied s
    else
      let oldStatus := record.status
      let record := { record with
        status := status
        fees := match fees with
                | some p => mergeFees record.fees p
                | none => record.fees }
      let (record, s1) :=
        if status == LoanStatus.returned && oldStatus != LoanStatus.returned then
          let record := { record with returnDate := some now }
          match findCopy s record.copyId with
          | some copy =>
              (record,
               updateCopyCounts record.inventoryId
                 (copySaveExisting { copy with status := CopyStatus.available } s))
          | none => (record, s)
        else (record, s)
      let s2 :=
        if status == LoanStatus.lost && oldStatus != LoanStatus.lost then
          match findCopy s1 record.copyId with
          | some copy =>
              updateCopyCounts record.inventoryId
                (copySaveExisting { copy with status := CopyStatus.lost } s1)
          | none => s1
        else s1
      recordSaveExisting now record s2

/-- The allowed-updates object of `updateCopy`. -/
structure CopyUpdates where
  barcode : Option String
  status : Option CopyStatus
  condition : Option String
  shelfLocation : Option String
  acquiredAt : Option Nat
  deriving DecidableEq, Repr

/-- Apply the filtered updates to a copy (barcodes are uppercased). -/
def applyCopyUpdates (c : Copy) (u : CopyUpdates) : Copy :=
  { c with
    barcode := match u.barcode with
               | some b => some b.toUpper
               | none => c.barcode
    status := u.status.getD c.status
    condition := u.condition.getD c.condition
    shelfLocation := match u.shelfLocation with
                     | some l => some l
                     | none => c.shelfLocation
    acquiredAt := u.acquiredAt.getD c.acquiredAt }

/-- `updateCopy`: after an optional per-library barcode-uniqueness check,
the update is applied with `Copy.findByIdAndUpdate` — a query write, so the
copy save middleware does not fire and no inventory recount happens even
when the update changes the copy's status. -/
def updateCopy (copyId : Nat) (u : CopyUpdates) (s : Store) : Outcome Copy :=
  let core : Outcome Copy :=
    match findCopy s copyId with
    | none => .fail .notFound s
    | some copy =>
        let c1 := applyCopyUpdates copy u
        .ok c1 (setCopy s c1)
  match u.barcode with
  | some b =>
      match findCopy s copyId with
      | none => .fail .notFound s
      | some copy =>
        if s.copies.any (fun x =>
            x.libraryId == copy.libraryId && x.barcode == some b.toUpper &&
            x.id != copyId)
        then .fail .duplicateBarcode s
        else core
  | none => core

/-- `deleteCopy`: refuse (400) while the copy is `borrowed`; otherwise
`copy.deleteOne()` removes the document.  `deleteOne` does not fire the
schema's `post('remove')` hook, so no inventory recount follows. -/
def deleteCopy (copyId : Nat) (s : Store) : Outcome Unit :=
  match findCopy s copyId with
  | none => .fail .notFound s
  | some copy =>
    if copy.status == CopyStatus.borrowed then .fail .cannotDeleteBorrowed s
    else .ok () { s with copies := s.copies.filter (fun c => c.id != copyId) }

/-- Whether a call succeeded. -/
def Outcome.isOk {α : Type} : Outcome α → Bool
  | .ok _ _ => true
  | .fail _ _ => false

/-- Structural well-formedness of a store: document ids are unique within
each collection and the fresh-id counter is above every record id. -/
def StoreWF (s : Store) : Prop :=
  (s.copies.map Copy.id).Nodup ∧
  (s.inventories.map Inventory.id).Nodup ∧
  (s.requests.map BorrowRequest.id).Nodup ∧
  (s.records.map BorrowRecord.id).Nodup ∧
  (∀ r ∈ s.records, r.id < s.nextId)

/-- The at-most-one-active-loan-per-copy invariant: no two distinct
records both hold status `borrowed` for the same copy. -/
def NoDoubleBorrow (s : Store) : Prop :=
  s.records.Pairwise (fun r₁ r₂ =>
    ¬(r₁.status = LoanStatus.borrowed ∧ r₂.status = LoanStatus.borrowed ∧
      r₁.copyId = r₂.copyId))

/-- The combined reachability invariant: structural well-formedness plus
the single-active-loan property. -/
def Inv (s : Store) : Prop := StoreWF s ∧ NoDoubleBorrow s

/-- States reachable from a base store through the embedded public
mutating operations (request decision, return, direct record update
including mark-lost, copy update, copy deletion), keeping the store an
operation leaves behind whether it succeeded or failed. -/
inductive Reachable : Store → Store → Prop where
  | refl (s : Store) : Reachable s s
  | decideRequest {s₀ s : Store} (caller : Caller) (now reqId : Nat)
      (status : RequestStatus) (notes : Option String) :
      Reachable s₀ s →
      Reachable s₀ (updateBorrowRequest caller now reqId status notes s).store
  | returnLoan {s₀ s : Store} (caller : Caller) (now recId : Nat)
      (fees : Option FeesPatch) :
      Reachable s₀ s →
      Reachable s₀ (returnBook caller now recId fees s).store
  | recordUpdate {s₀ s : Store} (caller : Caller) (now recId : Nat)
      (status : LoanStatus) (fees : Option FeesPatch) :
      Reachable s₀ s →
      Reachable s₀ (updateBorrowRecord caller now recId status fees s).store
  | copyUpdate {s₀ s : Store} (copyId : Nat) (u : CopyUpdates) :
      Reachable s₀ s →
      Reachable s₀ (updateCopy copyId u s).store
  | copyDelete {s₀ s : Store} (copyId : Nat) :
      Reachable s₀ s →
      Reachable s₀ (deleteCopy copyId s).store

/-- Result of a finished concurrent approval call. -/
inductive ApproveResult where
  | ok
  | error (e : ApiError)
  deriving DecidableEq, Repr

/-- Program counter of one in-flight `decide(approved)` call, split at the
await points of `updateBorrowRequest`: load-and-check, copy lookup, record
save, copy save, explicit recount, request save. -/
inductive ApprovePC where
  | start
  | loaded (request : BorrowRequest)
  | picked (request : BorrowRequest) (copy : Copy)
  | recordSaved (request : BorrowRequest) (copy : Copy)
  | copySaved (request : BorrowRequest)
  | recounted (request : BorrowRequest)
  | finished (result : ApproveResult)
  deriving DecidableEq, Repr

/-- One concurrent `decide(approved)` call: its inputs plus where it
stands. -/
structure ApproveThread where
  caller : Caller
  now : Nat
  reqId : Nat
  pc : ApprovePC
  deriving DecidableEq, Repr

/-- One small step of an in-flight approval.  Each step performs the work
between two consecutive awaits of `updateBorrowRequest`, so interleaving
steps of several threads models concurrent request handling against the
shared store. -/
def approveStep (t : ApproveThread) (s : Store) : ApproveThread × Store :=
  match t.pc with
  | .start =>
    match findRequest s t.reqId with
    | none => ({ t with pc := .finished (ApproveResult.error .notFound) }, s)
    | some request =>
      if request.status != RequestStatus.pending then
        ({ t with pc := .finished (ApproveResult.error .alreadyProcessed) }, s)
      else if scopeDenied t.caller request.libraryId then
        ({ t with pc := .finished (ApproveResult.error .accessDenied) }, s)
      else
        ({ t with pc := .loaded { request with
            status := RequestStatus.approved
            decidedBy := some t.caller.userId
            decidedAt := some t.now } }, s)
  | .loaded request =>
    match findAvailableCopy s request.inventoryId with
    | none => ({ t with pc := .finished (ApproveResult.error .noAvailableCopies) }, s)
    | some availableCopy =>
        ({ t with pc :=
            .picked { request with copyId := some availableCopy.id } availableCopy }, s)
  | .picked request availableCopy =>
    let borrowRecord : BorrowRecord := {
      id := s.nextId
      userId := request.userId
      libraryId := request.libraryId
      titleId := request.titleId
      inventoryId := availableCopy.inventoryId
      copyId := availableCopy.id
      borrowDate := t.now
      dueDate := t.now + loanPeriod
      returnDate := none
      status := LoanStatus.borrowed
      approvedBy := t.caller.userId
      fees := { lateFee := 0, damageFee := 0, currency := "USD" } }
    match recordSaveNew t.now borrowRecord s with
    | .fail e s1 => ({ t with pc := .finished (ApproveResult.error e) }, s1)
    | .ok _ s1 => ({ t with pc := .recordSaved request availableCopy }, s1)
  | .recordSaved request availableCopy =>
    ({ t with pc := .copySaved request },
     copySaveExisting { availableCopy with status := CopyStatus.borrowed } s)
  | .copySaved request =>
    ({ t with pc := .recounted request },
     match request.inventoryId with
     | some inv => updateCopyCounts inv s
     | none => s)
  | .recounted request =>
    ({ t with pc := .finished ApproveResult.ok }, setRequest s request)
  | .finished _ => (t, s)

/-- Run a schedule (a list of thread indices) over a pool of concurrent
approval calls; out-of-range indices are skipped. -/
def runSchedule : List Nat → List ApproveThread → Store → List ApproveThread × Store
  | [], ts, s => (ts, s)
  | i :: rest, ts, s =>
    match ts[i]? with
    | none => runSchedule rest ts s
    | some t =>
        let (t', s') := approveStep t s
        runSchedule rest (ts.set i t') s'

/-- Sequential (non-interleaved) processing of a batch of
`decide(approved)` calls: each call runs to completion before the next
starts, threading the store. -/
def decideAll (caller : Caller) (now : Nat) (ids : List Nat) (s : Store) :
    List (Outcome BorrowRequest) × Store :=
  match ids with
  | [] => ([], s)
  | i :: rest =>
    let out := updateBorrowRequest caller now i RequestStatus.approved none s
    let (outs, s') := decideAll caller now rest out.store
    (out :: outs, s')

/-- Number of successful outcomes in a batch. -/
def countOk (outs : List (Outcome BorrowRequest)) : Nat :=
  (outs.filter Outcome.isOk).length

/-! ### Concrete fixtures

Small concrete stores (library 7, title 3, inventory 1) used to evaluate
the embedded operations at explicit inputs. -/

/-- A copy of inventory 1 with the given id and status. -/
def exCopy (i : Nat) (st : CopyStatus) : Copy :=
  { id := i
    inventoryId := 1
    libraryId := 7
    titleId := 3
    barcode := none
    status := st
    condition := "good"
    shelfLocation := none
    acquiredAt := 0 }

/-- Inventory 1 with the given stored counts. -/
def exInventory (total avail : Nat) : Inventory :=
  { id := 1, libraryId := 7, titleId := 3, totalCopies := total, availableCopies := avail }

/-- A pending request (user 5) for inventory 1 with the given id. -/
def exRequest (i : Nat) : BorrowRequest :=
  { id := i
    userId := 5
    libraryId := 7
    titleId := 3
    inventoryId := some 1
    copyId := none
    status := RequestStatus.pending
    requestedAt := 0
    decidedAt := none
    decidedBy := none
    notes := none }

/-- A borrow record (user 5, inventory 1) on the given copy with the given
status, due date and return date. -/
def exRecord (i : Nat) (copyId : Nat) (st : LoanStatus) (due : Nat)
    (ret : Option Nat) : BorrowRecord :=
  { id := i
    userId := 5
    libraryId := 7
    titleId := 3
    inventoryId := 1
    copyId := copyId
    borrowDate := 0
    dueDate := due
    returnDate := ret
    status := st
    approvedBy := 9
    fees := { lateFee := 0, damageFee := 0, currency := "USD" } }

/-- A superadmin caller (no scope restriction applies). -/
def exAdmin : Caller := { userId := 9, role := Role.superadmin, libraries := [] }

/-- C1 scenario: one borrowed copy, counts in sync (`availableCopies = 0`). -/
def exC1Store : Store :=
  { inventories := [exInventory 1 0]
    copies := [exCopy 10 CopyStatus.borrowed]
    requests := []
    records := []
    nextId := 100 }

/-- C1 update body: set the copy's status to `available`. -/
def exC1Updates : CopyUpdates :=
  { barcode := none
    status := some CopyStatus.available
    condition := none
    shelfLocation := none
    acquiredAt := none }

/-- C2 scenario: a pending request (20) for inventory 1, which has no
copies at all. -/
def exC2Store : Store :=
  { inventories := [exInventory 0 0]
    copies := []
    requests := [exRequest 20]
    records := []
    nextId := 100 }

/-- C5 scenario: one loan still `borrowed` whose due date (10) is past. -/
def exC5Store : Store :=
  { inventories := [exInventory 1 0]
    copies := [exCopy 10 CopyStatus.borrowed]
    requests := []
    records := [exRecord 50 10 LoanStatus.borrowed 10 none]
    nextId := 100 }

/-- C6 scenario: a `returned` loan (record 50, copy 10 back on the shelf)
and a `lost` loan (record 51, copy 11). -/
def exC6Store : Store :=
  { inventories := [exInventory 2 1]
    copies := [exCopy 10 CopyStatus.available, exCopy 11 CopyStatus.lost]
    requests := []
    records := [exRecord 50 10 LoanStatus.returned 30 (some 5),
                exRecord 51 11 LoanStatus.lost 30 none]
    nextId := 100 }

/-- C8 scenario: three copies (10 and 11 available, 12 borrowed), counts in
sync. -/
def exC8Store : Store :=
  { inventories := [exInventory 3 2]
    copies := [exCopy 10 CopyStatus.available, exCopy 11 CopyStatus.available,
               exCopy 12 CopyStatus.borrowed]
    requests := []
    records := []
    nextId := 100 }

/-- C9 scenario: two pending requests (20 and 21) competing for inventory 1
which has a single available copy (10). -/
def exC9Store : Store :=
  { inventories := [exInventory 1 1]
    copies := [exCopy 10 CopyStatus.available]
    requests := [exRequest 20, exRequest 21]
    records := []
    nextId := 100 }

/-- First concurrent approval call (request 20). -/
def exThreadA : ApproveThread :=
  { caller := exAdmin, now := 1000, reqId := 20, pc := ApprovePC.start }

/-- Second concurrent approval call (request 21). -/
def exThreadB : ApproveThread :=
  { caller := exAdmin, now := 1000, reqId := 21, pc := ApprovePC.start }

/-- The racy schedule: both calls pass their availability check (steps
0,0,1,1) before the first one writes (0,0,0,0); the second then hits the
unique borrowed-loan index when saving its record (final 1). -/
def exC9Schedule : List Nat := [0, 0, 1, 1, 0, 0, 0, 0, 1]

/-- C10 scenario: a `returned` loan (record 50) whose due date (10) is long
past and whose `returnDate` is set. -/
def exC10Store : Store :=
  { inventories := [exInventory 1 1]
    copies := [exCopy 10 CopyStatus.available]
    requests := []
    records := [exRecord 50 10 LoanStatus.returned 10 (some 5)]
    nextId := 100 }

/-! ### Theorems -/

/-- C1: the claim states that after any operation changing a copy's
status, `availableCopies` equals the count of available copies.  The code
violates it: `updateCopy` writes through `findByIdAndUpdate`, which skips
the copy save middleware, so no recount runs.  Concretely: with one
borrowed copy and counts in sync (`availableCopies = 0`), flipping the
copy to `available` through `updateCopy` succeeds, yet the stored
`availableCopies` stays `0` while the fresh count is `1`. -/
theorem c1_updateCopy_skips_recount :
    (findInventory exC1Store 1).map Inventory.availableCopies =
        some (countAvailableCopies exC1Store 1) ∧
    (updateCopy 10 exC1Updates exC1Store).isOk = true ∧
    (findCopy (updateCopy 10 exC1Updates exC1Store).store 10).map Copy.status =
        some CopyStatus.available ∧
    (findInventory (updateCopy 10 exC1Updates exC1Store).store 1).map
        Inventory.availableCopies = some 0 ∧
    countAvailableCopies (updateCopy 10 exC1Updates exC1Store).store 1 = 1 := by
  decide

/-- C8: deleting a `borrowed` copy fails with the conflict error and
leaves the store untouched, as claimed; but on a successful delete the
claimed recount does not happen, because `copy.deleteOne()` does not fire
the `post('remove')` hook.  Concretely: deleting available copy 10 from an
in-sync inventory of three copies leaves the stored counts at `(3, 2)`
while the fresh counts over the remaining copies are `(2, 1)`. -/
theorem c8_deleteOne_skips_recount :
    deleteCopy 12 exC8Store = Outcome.fail ApiError.cannotDeleteBorrowed exC8Store ∧
    (deleteCopy 10 exC8Store).isOk = true ∧
    findCopy (deleteCopy 10 exC8Store).store 10 = none ∧
    (findInventory (deleteCopy 10 exC8Store).store 1).map Inventory.totalCopies =
        some 3 ∧
    (findInventory (deleteCopy 10 exC8Store).store 1).map Inventory.availableCopies =
        some 2 ∧
    countCopies (deleteCopy 10 exC8Store).store 1 = 2 ∧
    countAvailableCopies (deleteCopy 10 exC8Store).store 1 = 1 := by
  decide

/-- C5 counterexample: `findOverdue` is a pure query, so reading an
overdue-but-still-`borrowed` record through it returns the record with its
status still `borrowed` and writes nothing — the claim that "as part of
the read, the record's persisted status becomes 'overdue'" is false. -/
theorem c5_counterexample_read_does_not_persist :
    exRecord 50 10 LoanStatus.borrowed 10 none ∈ findOverdue 20 none exC5Store ∧
    (findRecord exC5Store 50).map BorrowRecord.status = some LoanStatus.borrowed ∧
    LoanStatus.borrowed ≠ LoanStatus.overdue := by
  refine ⟨?_, by decide, by decide⟩
  unfold findOverdue
  rw [List.mem_mergeSort]
  decide

/-- C6 counterexample: marking an already-`returned` record lost (record
50) does not fail with a conflict — it succeeds and flips the record to
`lost`; marking an already-`lost` record lost (record 51) also succeeds. -/
theorem c6_counterexample_markLost_no_conflict :
    (updateBorrowRecord exAdmin 50 50 LoanStatus.lost none exC6Store).isOk = true ∧
    (findRecord (updateBorrowRecord exAdmin 50 50 LoanStatus.lost none exC6Store).store
        50).map BorrowRecord.status = some LoanStatus.lost ∧
    (findRecord exC6Store 50).map BorrowRecord.status = some LoanStatus.returned ∧
    (updateBorrowRecord exAdmin 50 51 LoanStatus.lost none exC6Store).isOk = true := by
  decide

/-- C10 counterexample: a direct record update that sets a `returned`
record (whose `returnDate` is set) back to `borrowed` is persisted as
`borrowed` even though its due date (10) lies before the save time (50) —
so a save can store a `borrowed` record whose due date has passed. -/
theorem c10_counterexample_borrowed_past_due_saved :
    (updateBorrowRecord exAdmin 50 50 LoanStatus.borrowed none exC10Store).isOk = true ∧
    (findRecord (updateBorrowRecord exAdmin 50 50 LoanStatus.borrowed none
        exC10Store).store 50).map BorrowRecord.status = some LoanStatus.borrowed ∧
    (findRecord (updateBorrowRecord exAdmin 50 50 LoanStatus.borrowed none
        exC10Store).store 50).map BorrowRecord.dueDate = some 10 ∧
    (10 : Nat) < 50 := by
  decide

/-! ### Replacement-by-key lemmas

The document setters all have the shape
`l.map (fun x => if key x == k then b else x)`; these lemmas describe
`find?`, key multisets and filter counts across such a write. -/

section ReplaceByKey

variable {α : Type} {key : α → Nat}

theorem repl_of_forall_ne {l : List α} {b : α} {k : Nat}
    (h : ∀ x ∈ l, key x ≠ k) :
    (l.map fun x => if key x == k then b else x) = l := by
  induction l with
  | nil => rfl
  | cons x t ih =>
    have hx : (key x == k) = false :=
      beq_eq_false_iff_ne.mpr (h x (List.mem_cons_self x t))
    simp only [List.map_cons, hx, Bool.false_eq_true, if_false]
    rw [ih (fun y hy => h y (List.mem_cons_of_mem x hy))]

theorem find?_repl_self {l : List α} {b : α} {k : Nat}
    (hb : key b = k) (hex : ∃ x ∈ l, key x = k) :
    (l.map fun x => if key x == k then b else x).find? (fun x => key x == k) =
      some b := by
  induction l with
  | nil => simp at hex
  | cons x t ih =>
    cases hxk : (key x == k) with
    | true =>
      simp only [List.map_cons, hxk, if_true, List.find?_cons,
        beq_iff_eq.mpr hb]
    | false =>
      rcases hex with ⟨y, hy, hky⟩
      rcases List.mem_cons.mp hy with rfl | hyt
      · exact absurd (beq_iff_eq.mpr hky) (by simp [hxk])
      · simp only [List.map_cons, hxk, Bool.false_eq_true, if_false,
          List.find?_cons]
        exact ih ⟨y, hyt, hky⟩

theorem find?_repl_ne {l : List α} {b : α} {k i : Nat}
    (hb : key b = k) (hik : i ≠ k) :
    (l.map fun x => if key x == k then b else x).find? (fun x => key x == i) =
      l.find? (fun x => key x == i) := by
  induction l with
  | nil => rfl
  | cons x t ih =>
    cases hxk : (key x == k) with
    | true =>
      have hxi : (key x == i) = false :=
        beq_eq_false_iff_ne.mpr
          (by rw [eq_of_beq hxk]; exact fun hc => hik hc.symm)
      have hbi : (key b == i) = false :=
        beq_eq_false_iff_ne.mpr (by rw [hb]; exact fun hc => hik hc.symm)
      simp only [List.map_cons, hxk, if_true, List.find?_cons, hbi, hxi]
      exact ih
    | false =>
      simp only [List.map_cons, hxk, Bool.false_eq_true, if_false,
        List.find?_cons]
      cases hxi : (key x == i) with
      | true => rfl
      | false => exact ih

theorem map_key_repl {l : List α} {b : α} {k : Nat} (hb : key b = k) :
    (l.map fun x => if key x == k then b else x).map key = l.map key := by
  induction l with
  | nil => rfl
  | cons x t ih =>
    cases hxk : (key x == k) with
    | true =>
      simp only [List.map_cons, hxk, if_true]
      rw [ih, hb, eq_of_beq hxk]
    | false =>
      simp only [List.map_cons, hxk, Bool.false_eq_true, if_false, ih]

theorem find?_key_eq_self {l : List α} {a : α}
    (hnd : (l.map key).Nodup) (ha : a ∈ l) :
    l.find? (fun x => key x == key a) = some a := by
  induction l with
  | nil => simp at ha
  | cons x t ih =>
    rcases List.mem_cons.mp ha with rfl | hat
    · simp [List.find?_cons]
    · have hx : (key x == key a) = false := by
        refine beq_eq_false_iff_ne.mpr (fun hc => ?_)
        have : key a ∈ t.map key := List.mem_map_of_mem key hat
        rw [← hc] at this
        exact (List.nodup_cons.mp hnd).1 this
      simp only [List.find?_cons, hx]
      exact ih (List.nodup_cons.mp hnd).2 hat

theorem length_filter_repl (p : α → Bool) {l : List α} {a b : α} {k : Nat}
    (hnd : (l.map key).Nodup) (ha : a ∈ l) (hak : key a = k) (hb : key b = k) :
    ((l.map fun x => if key x == k then b else x).filter p).length +
        (if p a then 1 else 0) =
      (l.filter p).length + (if p b then 1 else 0) := by
  induction l with
  | nil => simp at ha
  | cons x t ih =>
    rcases List.mem_cons.mp ha with rfl | hat
    · have ht : ∀ y ∈ t, key y ≠ k := by
        intro y hy hc
        have : key y ∈ t.map key := List.mem_map_of_mem key hy
        rw [hc, ← hak] at this
        exact (List.nodup_cons.mp hnd).1 this
      have hx : (key a == k) = true := beq_iff_eq.mpr hak
      simp only [List.map_cons, hx, if_true, repl_of_forall_ne ht,
        List.filter_cons]
      cases hpb : p b <;> cases hpa : p a <;>
        simp only [hpb, hpa, if_true, Bool.false_eq_true, if_false,
          List.length_cons] <;>
        omega
    · have hx : (key x == k) = false := by
        refine beq_eq_false_iff_ne.mpr (fun hc => ?_)
        have : key a ∈ t.map key := List.mem_map_of_mem key hat
        rw [hak, ← hc] at this
        exact (List.nodup_cons.mp hnd).1 this
      have ihx := ih (List.nodup_cons.mp hnd).2 hat
      simp only [List.map_cons, hx, Bool.false_eq_true, if_false,
        List.filter_cons]
      cases hpx : p x <;>
        simp only [hpx, if_true, Bool.false_eq_true, if_false,
          List.length_cons] <;>
        omega

theorem repl_self_eq {l : List α} {a : α}
    (hnd : (l.map key).Nodup) (ha : a ∈ l) :
    (l.map fun x => if key x == key a then a else x) = l := by
  induction l with
  | nil => rfl
  | cons x t ih =>
    rcases List.mem_cons.mp ha with rfl | hat
    · have ht : ∀ y ∈ t, key y ≠ key a := by
        intro y hy hc
        have : key y ∈ t.map key := List.mem_map_of_mem key hy
        rw [hc] at this
        exact (List.nodup_cons.mp hnd).1 this
      simp only [List.map_cons, beq_self_eq_true, if_true,
        repl_of_forall_ne ht]
    · have hx : (key x == key a) = false := by
        refine beq_eq_false_iff_ne.mpr (fun hc => ?_)
        have : key a ∈ t.map key := List.mem_map_of_mem key hat
        rw [← hc] at this
        exact (List.nodup_cons.mp hnd).1 this
      simp only [List.map_cons, hx, Bool.false_eq_true, if_false]
      rw [ih (List.nodup_cons.mp hnd).2 hat]

theorem length_filter_and_le (p q : α → Bool) (l : List α) :
    (l.filter fun x => p x && q x).length ≤ (l.filter p).length := by
  induction l with
  | nil => simp
  | cons x t ih =>
    simp only [List.filter_cons]
    cases hp : p x <;> cases hq : q x <;> simp [hp, hq] <;> omega

end ReplaceByKey

/-! ### Store-level lemmas -/

theorem findCopy_elim {s : Store} {i : Nat} {c : Copy}
    (h : findCopy s i = some c) : c ∈ s.copies ∧ c.id = i := by
  unfold findCopy at h
  have hp := List.find?_some h
  exact ⟨List.mem_of_find?_eq_some h, eq_of_beq hp⟩

theorem findInventory_elim {s : Store} {i : Nat} {inv : Inventory}
    (h : findInventory s i = some inv) : inv ∈ s.inventories ∧ inv.id = i := by
  unfold findInventory at h
  have hp := List.find?_some h
  exact ⟨List.mem_of_find?_eq_some h, eq_of_beq hp⟩

theorem findRequest_elim {s : Store} {i : Nat} {r : BorrowRequest}
    (h : findRequest s i = some r) : r ∈ s.requests ∧ r.id = i := by
  unfold findRequest at h
  have hp := List.find?_some h
  exact ⟨List.mem_of_find?_eq_some h, eq_of_beq hp⟩

theorem findRecord_elim {s : Store} {i : Nat} {r : BorrowRecord}
    (h : findRecord s i = some r) : r ∈ s.records ∧ r.id = i := by
  unfold findRecord at h
  have hp := List.find?_some h
  exact ⟨List.mem_of_find?_eq_some h, eq_of_beq hp⟩

theorem findCopy_setCopy_self {s : Store} {c : Copy}
    (hex : ∃ x ∈ s.copies, x.id = c.id) :
    findCopy (setCopy s c) c.id = some c :=
  find?_repl_self rfl hex

theorem findCopy_setCopy_ne {s : Store} {c : Copy} {i : Nat} (h : i ≠ c.id) :
    findCopy (setCopy s c) i = findCopy s i :=
  find?_repl_ne rfl h

theorem findRequest_setRequest_self {s : Store} {r : BorrowRequest}
    (hex : ∃ x ∈ s.requests, x.id = r.id) :
    findRequest (setRequest s r) r.id = some r :=
  find?_repl_self rfl hex

theorem findRequest_setRequest_ne {s : Store} {r : BorrowRequest} {i : Nat}
    (h : i ≠ r.id) :
    findRequest (setRequest s r) i = findRequest s i :=
  find?_repl_ne rfl h

theorem findRecord_setRecord_self {s : Store} {r : BorrowRecord}
    (hex : ∃ x ∈ s.records, x.id = r.id) :
    findRecord (setRecord s r) r.id = some r :=
  find?_repl_self rfl hex

theorem findRecord_setRecord_ne {s : Store} {r : BorrowRecord} {i : Nat}
    (h : i ≠ r.id) :
    findRecord (setRecord s r) i = findRecord s i :=
  find?_repl_ne rfl h

theorem findInventory_setInventory_self {s : Store} {inv : Inventory}
    (hex : ∃ x ∈ s.inventories, x.id = inv.id) :
    findInventory (setInventory s inv) inv.id = some inv :=
  find?_repl_self rfl hex

theorem findInventory_setInventory_ne {s : Store} {inv : Inventory} {i : Nat}
    (h : i ≠ inv.id) :
    findInventory (setInventory s inv) i = findInventory s i :=
  find?_repl_ne rfl h

theorem findRecord_congr {s s' : Store} (h : s'.records = s.records) (i : Nat) :
    findRecord s' i = findRecord s i := by
  unfold findRecord
  rw [h]

theorem findCopy_congr {s s' : Store} (h : s'.copies = s.copies) (i : Nat) :
    findCopy s' i = findCopy s i := by
  unfold findCopy
  rw [h]

theorem findRequest_congr {s s' : Store} (h : s'.requests = s.requests) (i : Nat) :
    findRequest s' i = findRequest s i := by
  unfold findRequest
  rw [h]

theorem updateCopyCounts_copies (invId : Nat) (s : Store) :
    (updateCopyCounts invId s).copies = s.copies := by
  unfold updateCopyCounts
  cases findInventory s invId <;> rfl

theorem updateCopyCounts_records (invId : Nat) (s : Store) :
    (updateCopyCounts invId s).records = s.records := by
  unfold updateCopyCounts
  cases findInventory s invId <;> rfl

theorem updateCopyCounts_requests (invId : Nat) (s : Store) :
    (updateCopyCounts invId s).requests = s.requests := by
  unfold updateCopyCounts
  cases findInventory s invId <;> rfl

theorem updateCopyCounts_nextId (invId : Nat) (s : Store) :
    (updateCopyCounts invId s).nextId = s.nextId := by
  unfold updateCopyCounts
  cases findInventory s invId <;> rfl

theorem countAvailable_le_countCopies (s : Store) (invId : Nat) :
    countAvailableCopies s invId ≤ countCopies s invId :=
  length_filter_and_le _ _ _

theorem updateCopyCounts_findInventory_self {s : Store} {invId : Nat}
    {inv : Inventory} (h : findInventory s invId = some inv) :
    findInventory (updateCopyCounts invId s) invId =
      some { inv with
        totalCopies := countCopies s invId
        availableCopies := countAvailableCopies s invId } := by
  have hle := countAvailable_le_countCopies s invId
  obtain ⟨hmem, hid⟩ := findInventory_elim h
  subst hid
  unfold updateCopyCounts
  rw [h]
  dsimp only
  rw [if_neg (by omega : ¬ countAvailableCopies s inv.id > countCopies s inv.id)]
  exact @findInventory_setInventory_self s
    { inv with
      totalCopies := countCopies s inv.id
      availableCopies := countAvailableCopies s inv.id }
    ⟨inv, hmem, rfl⟩

theorem updateCopyCounts_findInventory_ne {s : Store} {invId i : Nat}
    (h : i ≠ invId) :
    findInventory (updateCopyCounts invId s) i = findInventory s i := by
  unfold updateCopyCounts
  cases hfi : findInventory s invId with
  | none => rfl
  | some inv =>
    have hid := (findInventory_elim hfi).2
    dsimp only
    split
    · exact findInventory_setInventory_ne (by show i ≠ inv.id; rw [hid]; exact h)
    · exact findInventory_setInventory_ne (by show i ≠ inv.id; rw [hid]; exact h)

/-! ### Save-chain lemmas -/

theorem countCopies_setCopy {s : Store} {c c₀ : Copy} {invId : Nat}
    (hnd : (s.copies.map Copy.id).Nodup) (hmem : c₀ ∈ s.copies)
    (hid : c₀.id = c.id) :
    countCopies (setCopy s c) invId +
        (if c₀.inventoryId == invId then 1 else 0) =
      countCopies s invId + (if c.inventoryId == invId then 1 else 0) :=
  length_filter_repl _ hnd hmem hid rfl

theorem countAvailable_setCopy {s : Store} {c c₀ : Copy} {invId : Nat}
    (hnd : (s.copies.map Copy.id).Nodup) (hmem : c₀ ∈ s.copies)
    (hid : c₀.id = c.id) :
    countAvailableCopies (setCopy s c) invId +
        (if c₀.inventoryId == invId && c₀.status == CopyStatus.available
         then 1 else 0) =
      countAvailableCopies s invId +
        (if c.inventoryId == invId && c.status == CopyStatus.available
         then 1 else 0) :=
  length_filter_repl _ hnd hmem hid rfl

theorem setCopy_map_id {s : Store} {c c₀ : Copy} (hid : c₀.id = c.id) :
    ((setCopy s c).copies.map Copy.id) = s.copies.map Copy.id := by
  have h : (c : Copy).id = c.id := rfl
  exact map_key_repl rfl

theorem copySaveExisting_records (c : Copy) (s : Store) :
    (copySaveExisting c s).records = s.records := by
  unfold copySaveExisting
  rw [updateCopyCounts_records]
  rfl

theorem copySaveExisting_requests (c : Copy) (s : Store) :
    (copySaveExisting c s).requests = s.requests := by
  unfold copySaveExisting
  rw [updateCopyCounts_requests]
  rfl

theorem copySaveExisting_nextId (c : Copy) (s : Store) :
    (copySaveExisting c s).nextId = s.nextId := by
  unfold copySaveExisting
  rw [updateCopyCounts_nextId]
  rfl

theorem copySaveExisting_copies (c : Copy) (s : Store) :
    (copySaveExisting c s).copies = (setCopy s c).copies := by
  unfold copySaveExisting
  rw [updateCopyCounts_copies]

theorem recordPostSave_records (r : BorrowRecord) (s : Store) :
    (recordPostSave r s).records = s.records := by
  unfold recordPostSave
  split
  · split <;> rfl
  · split
    · split <;> rfl
    · rfl

theorem recordPostSave_requests (r : BorrowRecord) (s : Store) :
    (recordPostSave r s).requests = s.requests := by
  unfold recordPostSave
  split
  · split <;> rfl
  · split
    · split <;> rfl
    · rfl

theorem recordPostSave_inventories (r : BorrowRecord) (s : Store) :
    (recordPostSave r s).inventories = s.inventories := by
  unfold recordPostSave
  split
  · split <;> rfl
  · split
    · split <;> rfl
    · rfl

theorem recordPostSave_nextId (r : BorrowRecord) (s : Store) :
    (recordPostSave r s).nextId = s.nextId := by
  unfold recordPostSave
  split
  · split <;> rfl
  · split
    · split <;> rfl
    · rfl

theorem setRecord_self {s : Store} {r : BorrowRecord}
    (hnd : (s.records.map BorrowRecord.id).Nodup) (hmem : r ∈ s.records) :
    setRecord s r = s := by
  show ({ s with records := _ } : Store) = s
  rw [repl_self_eq hnd hmem]

theorem recordPostSave_of_other {r : BorrowRecord} {s : Store}
    (hnb : r.status ≠ LoanStatus.borrowed)
    (hnr : r.status ≠ LoanStatus.returned) :
    recordPostSave r s = s := by
  unfold recordPostSave
  rw [if_neg (by simp [hnb]), if_neg (by simp [hnr])]

theorem countCopies_congr {s s' : Store} (h : s'.copies = s.copies)
    (invId : Nat) : countCopies s' invId = countCopies s invId := by
  unfold countCopies
  rw [h]

theorem countAvailable_congr {s s' : Store} (h : s'.copies = s.copies)
    (invId : Nat) :
    countAvailableCopies s' invId = countAvailableCopies s invId := by
  unfold countAvailableCopies
  rw [h]

theorem findInventory_congr {s s' : Store}
    (h : s'.inventories = s.inventories) (i : Nat) :
    findInventory s' i = findInventory s i := by
  unfold findInventory
  rw [h]

theorem recordPreSave_id (now : Nat) (r : BorrowRecord) :
    (recordPreSave now r).id = r.id := by
  unfold recordPreSave
  split <;> rfl

theorem recordPreSave_copyId (now : Nat) (r : BorrowRecord) :
    (recordPreSave now r).copyId = r.copyId := by
  unfold recordPreSave
  split <;> rfl

theorem recordPreSave_of_not_borrowed {now : Nat} {r : BorrowRecord}
    (h : r.status ≠ LoanStatus.borrowed) : recordPreSave now r = r := by
  unfold recordPreSave
  rw [if_neg]
  simp [h]

theorem borrowedIndexViolation_of_not_borrowed {s : Store} {r : BorrowRecord}
    (h : r.status ≠ LoanStatus.borrowed) :
    borrowedIndexViolation s r = false := by
  unfold borrowedIndexViolation
  simp [h]

theorem recordSaveExisting_eq {now : Nat} {r : BorrowRecord} {s : Store}
    (hviol : borrowedIndexViolation s (recordPreSave now r) = false) :
    recordSaveExisting now r s =
      .ok (recordPreSave now r)
        (recordPostSave (recordPreSave now r)
          (setRecord s (recordPreSave now r))) := by
  unfold recordSaveExisting
  dsimp only
  rw [hviol]
  simp

/-- C9 counterexample: two interleaved `decide(approved)` calls against an
inventory with a single available copy (`M = 1 < N = 2`).  Both pass the
availability check before either writes; the winner completes, but the
loser fails on the unique borrowed-loan index — a 500 internal error, not
the claimed insufficient-availability error. -/
theorem c9_counterexample_race_wrong_error :
    countAvailableCopies exC9Store 1 = 1 ∧
    ((runSchedule exC9Schedule [exThreadA, exThreadB] exC9Store).1.map
        ApproveThread.pc) =
      [ApprovePC.finished ApproveResult.ok,
       ApprovePC.finished (ApproveResult.error ApiError.internalError)] ∧
    ApiError.internalError ≠ ApiError.noAvailableCopies := by
  decide

/-- An approval that finds no available copy fails before any write. -/
theorem approve_insufficient (caller : Caller) (now reqId : Nat)
    (notes : Option String) (s : Store) (request : BorrowRequest)
    (hreq : findRequest s reqId = some request)
    (hpend : request.status = RequestStatus.pending)
    (hauth : scopeDenied caller request.libraryId = false)
    (hnone : findAvailableCopy s request.inventoryId = none) :
    updateBorrowRequest caller now reqId RequestStatus.approved notes s =
      .fail .noAvailableCopies s := by
  unfold updateBorrowRequest
  rw [hreq]
  dsimp only
  rw [hpend]
  simp only [bne_self_eq_false, Bool.false_eq_true, if_false, hauth,
    beq_self_eq_true, if_true]
  rw [hnone]

/-- C2: a `decide(approved)` call on a pending request whose inventory has
no available copy fails with the insufficient-availability error and
returns the store exactly as it was: the request is still persisted as
`pending`, no borrow record exists, no copy changed — the failure branch
runs before any write. -/
theorem c2_approve_insufficient_is_atomic (caller : Caller) (now reqId : Nat)
    (notes : Option String) (s : Store) (request : BorrowRequest)
    (hreq : findRequest s reqId = some request)
    (hpend : request.status = RequestStatus.pending)
    (hauth : scopeDenied caller request.libraryId = false)
    (hnone : findAvailableCopy s request.inventoryId = none) :
    updateBorrowRequest caller now reqId RequestStatus.approved notes s =
      .fail .noAvailableCopies s :=
  approve_insufficient caller now reqId notes s request hreq hpend hauth hnone

/-- C2 witness: the theorem applied to a concrete store (pending request
20, inventory with no copies). -/
theorem c2_witness :
    findRequest exC2Store 20 = some (exRequest 20) ∧
    (exRequest 20).status = RequestStatus.pending ∧
    scopeDenied exAdmin (exRequest 20).libraryId = false ∧
    findAvailableCopy exC2Store (exRequest 20).inventoryId = none ∧
    updateBorrowRequest exAdmin 1000 20 RequestStatus.approved none exC2Store =
      .fail .noAvailableCopies exC2Store :=
  ⟨by decide, by decide, by decide, by decide,
   c2_approve_insufficient_is_atomic exAdmin 1000 20 none exC2Store
     (exRequest 20) (by decide) (by decide) (by decide) (by decide)⟩

/-- C7: a first `returnBook` on a not-yet-returned loan succeeds, marking
the record returned with `returnDate` set; a second `returnBook` on the
same record — by any caller, at any later time, with any fees — fails with
the already-returned conflict and hands back the store exactly as the
first call left it (the conflict branch runs before any write). -/
theorem c7_markReturned_idempotent (caller caller₂ : Caller)
    (now now₂ recId : Nat) (fees fees₂ : Option FeesPatch) (s : Store)
    (record : BorrowRecord)
    (hrec : findRecord s recId = some record)
    (hnret : record.status ≠ LoanStatus.returned)
    (hauth : scopeDenied caller record.libraryId = false) :
    ∃ record₁ s₁,
      returnBook caller now recId fees s = .ok record₁ s₁ ∧
      record₁.status = LoanStatus.returned ∧
      record₁.returnDate = some now ∧
      returnBook caller₂ now₂ recId fees₂ s₁ = .fail .alreadyReturned s₁ := by
  obtain ⟨hmem, hid⟩ := findRecord_elim hrec
  obtain ⟨record₁, hrec₁⟩ : ∃ r₁, ({ record with
      status := LoanStatus.returned
      returnDate := some now
      fees := match fees with
              | some p => mergeFees record.fees p
              | none => record.fees } : BorrowRecord) = r₁ := ⟨_, rfl⟩
  have hst : record₁.status = LoanStatus.returned := by rw [← hrec₁]
  have hrd : record₁.returnDate = some now := by rw [← hrec₁]
  have hid₁ : record₁.id = record.id := by rw [← hrec₁]
  have hcp₁ : record₁.copyId = record.copyId := by rw [← hrec₁]
  have hstatus : ¬ (record.status == LoanStatus.returned) = true := by
    simp [hnret]
  obtain ⟨s1, hs1def, hs1records⟩ : ∃ s1, (match findCopy s record.copyId with
      | some copy => updateCopyCounts record.inventoryId
          (copySaveExisting { copy with status := CopyStatus.available } s)
      | none => s) = s1 ∧ s1.records = s.records := by
    refine ⟨_, rfl, ?_⟩
    cases findCopy s record.copyId with
    | some copy => rw [updateCopyCounts_records, copySaveExisting_records]
    | none => rfl
  have happ : returnBook caller now recId fees s =
      recordSaveExisting now record₁ s1 := by
    unfold returnBook
    rw [hrec]
    dsimp only
    rw [if_neg hstatus]
    simp only [hauth, Bool.false_eq_true, if_false]
    rw [hrec₁, hs1def]
  have hnb : record₁.status ≠ LoanStatus.borrowed := by
    rw [hst]
    simp
  have hpre : recordPreSave now record₁ = record₁ :=
    recordPreSave_of_not_borrowed hnb
  have hviol : borrowedIndexViolation s1 (recordPreSave now record₁) = false := by
    rw [hpre]
    exact borrowedIndexViolation_of_not_borrowed hnb
  rw [recordSaveExisting_eq hviol, hpre] at happ
  refine ⟨record₁, recordPostSave record₁ (setRecord s1 record₁), happ, hst, hrd, ?_⟩
  have hfind₂ : findRecord (recordPostSave record₁ (setRecord s1 record₁)) recId =
      some record₁ := by
    rw [findRecord_congr (recordPostSave_records record₁ (setRecord s1 record₁))]
    have hx := findRecord_setRecord_self
      ⟨record, hs1records ▸ hmem, hid₁.symm⟩
    rw [show record₁.id = recId from hid₁.trans hid] at hx
    exact hx
  unfold returnBook
  rw [hfind₂]
  dsimp only
  rw [if_pos (by rw [hst]; rfl)]

/-- C7 witness: the theorem applied to a concrete overdue `borrowed` loan
(record 50). -/
theorem c7_witness :
    findRecord exC5Store 50 = some (exRecord 50 10 LoanStatus.borrowed 10 none) ∧
    (exRecord 50 10 LoanStatus.borrowed 10 none).status ≠ LoanStatus.returned ∧
    scopeDenied exAdmin (exRecord 50 10 LoanStatus.borrowed 10 none).libraryId = false ∧
    ∃ record₁ s₁,
      returnBook exAdmin 40 50 none exC5Store = .ok record₁ s₁ ∧
      record₁.status = LoanStatus.returned ∧
      record₁.returnDate = some 40 ∧
      returnBook exAdmin 41 50 none s₁ = .fail .alreadyReturned s₁ :=
  ⟨by decide, by decide, by decide,
   c7_markReturned_idempotent exAdmin exAdmin 40 41 50 none none exC5Store
     (exRecord 50 10 LoanStatus.borrowed 10 none)
     (by decide) (by decide) (by decide)⟩

/-- C6 (amended): marking a record lost through the direct record update
never fails with a conflict.  Whatever the current status, the call
succeeds and persists the record as `lost`.  When the prior status was not
`lost`, the copy (when it exists) is set to `lost` and the inventory
counts (when the inventory exists) are recomputed from the copies.  When
the record was already `lost` (and no fee patch is supplied), the store is
left exactly as it was. -/
theorem c6_markLost_amended (caller : Caller) (now recId : Nat)
    (fees : Option FeesPatch) (s : Store) (record : BorrowRecord)
    (hrec : findRecord s recId = some record)
    (hauth : scopeDenied caller record.libraryId = false) :
    ∃ record₁ s₁,
      updateBorrowRecord caller now recId LoanStatus.lost fees s =
        .ok record₁ s₁ ∧
      record₁.status = LoanStatus.lost ∧
      findRecord s₁ recId = some record₁ ∧
      (∀ copy, record.status ≠ LoanStatus.lost →
        findCopy s record.copyId = some copy →
        (findCopy s₁ record.copyId).map Copy.status = some CopyStatus.lost ∧
        (∀ inv, findInventory s record.inventoryId = some inv →
          (findInventory s₁ record.inventoryId).map Inventory.availableCopies =
            some (countAvailableCopies s₁ record.inventoryId) ∧
          (findInventory s₁ record.inventoryId).map Inventory.totalCopies =
            some (countCopies s₁ record.inventoryId))) ∧
      (record.status = LoanStatus.lost → fees = none →
        (s.records.map BorrowRecord.id).Nodup → s₁ = s) := by
  obtain ⟨hmem, hid⟩ := findRecord_elim hrec
  obtain ⟨record₁, hrec₁⟩ : ∃ r₁, ({ record with
      status := LoanStatus.lost
      fees := match fees with
              | some p => mergeFees record.fees p
              | none => record.fees } : BorrowRecord) = r₁ := ⟨_, rfl⟩
  have hst : record₁.status = LoanStatus.lost := by rw [← hrec₁]
  have hid₁ : record₁.id = record.id := by rw [← hrec₁]
  have hnb : record₁.status ≠ LoanStatus.borrowed := by rw [hst]; simp
  have hnr : record₁.status ≠ LoanStatus.returned := by rw [hst]; simp
  have hpre : recordPreSave now record₁ = record₁ :=
    recordPreSave_of_not_borrowed hnb
  by_cases hlost : record.status = LoanStatus.lost
  · have happ : updateBorrowRecord caller now recId LoanStatus.lost fees s =
        recordSaveExisting now record₁ s := by
      unfold updateBorrowRecord
      rw [hrec]
      dsimp only
      simp only [hauth, Bool.false_eq_true, if_false]
      rw [if_neg (by simp)]
      dsimp only
      rw [if_neg (by simp [hlost])]
      rw [hrec₁]
    rw [recordSaveExisting_eq
        (by rw [hpre]; exact borrowedIndexViolation_of_not_borrowed hnb),
      hpre, recordPostSave_of_other hnb hnr] at happ
    refine ⟨record₁, _, happ, hst, ?_, ?_, ?_⟩
    · have hx := findRecord_setRecord_self ⟨record, hmem, hid₁.symm⟩
      rw [show record₁.id = recId from hid₁.trans hid] at hx
      exact hx
    · intro copy hne _
      exact absurd hlost hne
    · intro _ hfees hnd
      subst hfees
      have hreq : record₁ = record := by
        rw [← hrec₁]
        cases record
        simp only at hlost ⊢
        rw [hlost]
      rw [hreq, setRecord_self hnd hmem]
  · cases hc : findCopy s record.copyId with
    | none =>
      have happ : updateBorrowRecord caller now recId LoanStatus.lost fees s =
          recordSaveExisting now record₁ s := by
        unfold updateBorrowRecord
        rw [hrec]
        dsimp only
        simp only [hauth, Bool.false_eq_true, if_false]
        rw [if_neg (by simp)]
        dsimp only
        rw [if_pos (by simp [hlost])]
        rw [hc]
        rw [hrec₁]
      rw [recordSaveExisting_eq
          (by rw [hpre]; exact borrowedIndexViolation_of_not_borrowed hnb),
        hpre, recordPostSave_of_other hnb hnr] at happ
      refine ⟨record₁, _, happ, hst, ?_, ?_, ?_⟩
      · have hx := findRecord_setRecord_self ⟨record, hmem, hid₁.symm⟩
        rw [show record₁.id = recId from hid₁.trans hid] at hx
        exact hx
      · intro copy _ hc'
        cases hc'
      · intro hl
        exact absurd hl hlost
    | some copy =>
      obtain ⟨hcmem, hcid⟩ := findCopy_elim hc
      obtain ⟨c₁, hc₁def⟩ : ∃ c₁, ({ copy with status := CopyStatus.lost } : Copy) = c₁ :=
        ⟨_, rfl⟩
      have hc₁id : c₁.id = copy.id := by rw [← hc₁def]
      have hc₁st : c₁.status = CopyStatus.lost := by rw [← hc₁def]
      have happ : updateBorrowRecord caller now recId LoanStatus.lost fees s =
          recordSaveExisting now record₁
            (updateCopyCounts record.inventoryId (copySaveExisting c₁ s)) := by
        unfold updateBorrowRecord
        rw [hrec]
        dsimp only
        simp only [hauth, Bool.false_eq_true, if_false]
        rw [if_neg (by simp)]
        dsimp only
        rw [if_pos (by simp [hlost])]
        rw [hc]
        dsimp only
        rw [hrec₁, hc₁def]
      rw [recordSaveExisting_eq
          (by rw [hpre]; exact borrowedIndexViolation_of_not_borrowed hnb),
        hpre, recordPostSave_of_other hnb hnr] at happ
      refine ⟨record₁, _, happ, hst, ?_, ?_, ?_⟩
      · have hmem2 : record ∈ (updateCopyCounts record.inventoryId
            (copySaveExisting c₁ s)).records := by
          rw [updateCopyCounts_records, copySaveExisting_records]
          exact hmem
        have hx := findRecord_setRecord_self ⟨record, hmem2, hid₁.symm⟩
        rw [show record₁.id = recId from hid₁.trans hid] at hx
        exact hx
      · intro copy' hne hc'
        injection hc' with hcc
        subst hcc
        constructor
        · have hcopies : (setRecord (updateCopyCounts record.inventoryId
              (copySaveExisting c₁ s)) record₁).copies = (setCopy s c₁).copies := by
            show (updateCopyCounts record.inventoryId
              (copySaveExisting c₁ s)).copies = _
            rw [updateCopyCounts_copies, copySaveExisting_copies]
          rw [findCopy_congr hcopies]
          have hx := findCopy_setCopy_self ⟨copy, hcmem, hc₁id.symm⟩
          rw [show c₁.id = record.copyId from hc₁id.trans hcid] at hx
          rw [hx]
          simp [hc₁st]
        · intro inv hinv
          have hYfind : ∃ invY, findInventory (copySaveExisting c₁ s)
              record.inventoryId = some invY := by
            unfold copySaveExisting
            by_cases heq : record.inventoryId = c₁.inventoryId
            · rw [heq]
              have hsc : findInventory (setCopy s c₁) c₁.inventoryId =
                  some inv := by
                rw [findInventory_congr (show (setCopy s c₁).inventories =
                  s.inventories from rfl)]
                rw [← heq]
                exact hinv
              exact ⟨_, updateCopyCounts_findInventory_self hsc⟩
            · rw [updateCopyCounts_findInventory_ne heq]
              refine ⟨inv, ?_⟩
              rw [findInventory_congr (show (setCopy s c₁).inventories =
                s.inventories from rfl)]
              exact hinv
          obtain ⟨invY, hYfind⟩ := hYfind
          have hs2find := updateCopyCounts_findInventory_self hYfind
          have hinvs : (setRecord (updateCopyCounts record.inventoryId
              (copySaveExisting c₁ s)) record₁).inventories =
              (updateCopyCounts record.inventoryId
                (copySaveExisting c₁ s)).inventories := rfl
          rw [findInventory_congr hinvs, hs2find]
          have hcopies2 : (setRecord (updateCopyCounts record.inventoryId
              (copySaveExisting c₁ s)) record₁).copies =
              (copySaveExisting c₁ s).copies := by
            show (updateCopyCounts record.inventoryId
              (copySaveExisting c₁ s)).copies = _
            rw [updateCopyCounts_copies]
          rw [countAvailable_congr hcopies2, countCopies_congr hcopies2]
          exact ⟨rfl, rfl⟩
      · intro hl
        exact absurd hl hlost

/-- C6 witness: the amended theorem applied to the concrete store with the
already-`returned` record 50 on copy 10. -/
theorem c6_witness :
    findRecord exC6Store 50 = some (exRecord 50 10 LoanStatus.returned 30 (some 5)) ∧
    scopeDenied exAdmin (exRecord 50 10 LoanStatus.returned 30 (some 5)).libraryId = false ∧
    (∃ record₁ s₁,
      updateBorrowRecord exAdmin 60 50 LoanStatus.lost none exC6Store =
        .ok record₁ s₁ ∧
      record₁.status = LoanStatus.lost ∧
      findRecord s₁ 50 = some record₁ ∧
      (∀ copy, (exRecord 50 10 LoanStatus.returned 30 (some 5)).status ≠ LoanStatus.lost →
        findCopy exC6Store (exRecord 50 10 LoanStatus.returned 30 (some 5)).copyId = some copy →
        (findCopy s₁ (exRecord 50 10 LoanStatus.returned 30 (some 5)).copyId).map Copy.status =
          some CopyStatus.lost ∧
        (∀ inv, findInventory exC6Store
            (exRecord 50 10 LoanStatus.returned 30 (some 5)).inventoryId = some inv →
          (findInventory s₁ (exRecord 50 10 LoanStatus.returned 30 (some 5)).inventoryId).map
              Inventory.availableCopies =
            some (countAvailableCopies s₁
              (exRecord 50 10 LoanStatus.returned 30 (some 5)).inventoryId) ∧
          (findInventory s₁ (exRecord 50 10 LoanStatus.returned 30 (some 5)).inventoryId).map
              Inventory.totalCopies =
            some (countCopies s₁
              (exRecord 50 10 LoanStatus.returned 30 (some 5)).inventoryId))) ∧
      ((exRecord 50 10 LoanStatus.returned 30 (some 5)).status = LoanStatus.lost →
        (none : Option FeesPatch) = none →
        (exC6Store.records.map BorrowRecord.id).Nodup → s₁ = exC6Store)) :=
  ⟨by decide, by decide,
   c6_markLost_amended exAdmin 60 50 none exC6Store
     (exRecord 50 10 LoanStatus.returned 30 (some 5)) (by decide) (by decide)⟩

theorem recordSave_ok_value {now : Nat} {r r' : BorrowRecord} {s s' : Store}
    (h : recordSaveExisting now r s = .ok r' s' ∨
         recordSaveNew now r s = .ok r' s') :
    r' = recordPreSave now r := by
  rcases h with h | h
  · unfold recordSaveExisting at h
    dsimp only at h
    split at h
    · cases h
    · injection h with h1 h2
      exact h1.symm
  · unfold recordSaveNew at h
    dsimp only at h
    split at h
    · cases h
    · injection h with h1 h2
      exact h1.symm

/-- C10 (amended): a record save (update or insert) stores the pre-save
normalized record: a `borrowed` record with no `returnDate` whose due date
lies before the save time is stored as `overdue`, and consequently no save
stores a record that is `borrowed` with no `returnDate` and an
already-passed due date.  (A record whose `returnDate` is set escapes the
normalization and can be stored as `borrowed` past its due date.) -/
theorem c10_presave_normalization_amended (now : Nat) (r r' : BorrowRecord)
    (s s' : Store)
    (h : recordSaveExisting now r s = .ok r' s' ∨
         recordSaveNew now r s = .ok r' s') :
    (r.status = LoanStatus.borrowed → r.returnDate = none →
      now > r.dueDate → r'.status = LoanStatus.overdue) ∧
    (r'.status = LoanStatus.borrowed → r'.returnDate = none →
      ¬ now > r'.dueDate) := by
  have hval := recordSave_ok_value h
  constructor
  · intro hst hret hdue
    rw [hval]
    unfold recordPreSave
    rw [if_pos (by simp [hst, hret, hdue])]
  · intro hst hret
    by_cases hcond : (r.status == LoanStatus.borrowed &&
        r.returnDate == none && decide (now > r.dueDate)) = true
    · have hov : r'.status = LoanStatus.overdue := by
        rw [hval]
        unfold recordPreSave
        rw [if_pos hcond]
      rw [hov] at hst
      cases hst
    · have hr : r' = r := by
        rw [hval]
        unfold recordPreSave
        rw [if_neg hcond]
      rw [hr] at hst hret ⊢
      intro hdue
      exact hcond (by simp [hst, hret, hdue])

/-- C10 witness: the normalization theorem applied to the concrete save of
the overdue `borrowed` record 50 at time 20. -/
theorem c10_witness :
    recordSaveExisting 20 (exRecord 50 10 LoanStatus.borrowed 10 none) exC5Store =
      .ok (exRecord 50 10 LoanStatus.overdue 10 none)
        { inventories := [exInventory 1 0]
          copies := [exCopy 10 CopyStatus.borrowed]
          requests := []
          records := [exRecord 50 10 LoanStatus.overdue 10 none]
          nextId := 100 } ∧
    (((exRecord 50 10 LoanStatus.borrowed 10 none).status = LoanStatus.borrowed →
        (exRecord 50 10 LoanStatus.borrowed 10 none).returnDate = none →
        20 > (exRecord 50 10 LoanStatus.borrowed 10 none).dueDate →
        (exRecord 50 10 LoanStatus.overdue 10 none).status = LoanStatus.overdue) ∧
      ((exRecord 50 10 LoanStatus.overdue 10 none).status = LoanStatus.borrowed →
        (exRecord 50 10 LoanStatus.overdue 10 none).returnDate = none →
        ¬ 20 > (exRecord 50 10 LoanStatus.overdue 10 none).dueDate)) :=
  ⟨by decide,
   c10_presave_normalization_amended 20
     (exRecord 50 10 LoanStatus.borrowed 10 none)
     (exRecord 50 10 LoanStatus.overdue 10 none) exC5Store
     { inventories := [exInventory 1 0]
       copies := [exCopy 10 CopyStatus.borrowed]
       requests := []
       records := [exRecord 50 10 LoanStatus.overdue 10 none]
       nextId := 100 }
     (Or.inl (by decide))⟩

/-- C5 (amended): a still-`borrowed` record whose due date is past is
returned by `findOverdue` — but the read writes nothing; the record is
normalized to `overdue` only by the pre-save hook at its next save
(when its `returnDate` is unset). -/
theorem c5_findOverdue_membership_and_presave (now : Nat) (r : BorrowRecord)
    (s : Store) (hmem : r ∈ s.records)
    (hst : r.status = LoanStatus.borrowed) (hdue : r.dueDate < now) :
    r ∈ findOverdue now none s ∧
    (r.returnDate = none →
      recordPreSave now r = { r with status := LoanStatus.overdue }) := by
  constructor
  · unfold findOverdue
    rw [List.mem_mergeSort, List.mem_filter]
    refine ⟨hmem, ?_⟩
    simp [hst, hdue]
  · intro hret
    unfold recordPreSave
    rw [if_pos (by simp [hst, hret, hdue])]

/-- C5 witness: the amended theorem applied to the concrete `borrowed`
record 50 with due date 10 read at time 20. -/
theorem c5_witness :
    exRecord 50 10 LoanStatus.borrowed 10 none ∈ exC5Store.records ∧
    (exRecord 50 10 LoanStatus.borrowed 10 none).status = LoanStatus.borrowed ∧
    (exRecord 50 10 LoanStatus.borrowed 10 none).dueDate < 20 ∧
    (exRecord 50 10 LoanStatus.borrowed 10 none ∈ findOverdue 20 none exC5Store ∧
      ((exRecord 50 10 LoanStatus.borrowed 10 none).returnDate = none →
        recordPreSave 20 (exRecord 50 10 LoanStatus.borrowed 10 none) =
          { exRecord 50 10 LoanStatus.borrowed 10 none with
              status := LoanStatus.overdue })) :=
  ⟨by decide, by decide, by decide,
   c5_findOverdue_membership_and_presave 20
     (exRecord 50 10 LoanStatus.borrowed 10 none) exC5Store
     (by decide) (by decide) (by decide)⟩

theorem repl_repl {α : Type} {key : α → Nat} {l : List α} {b : α} {k : Nat}
    (hb : key b = k) :
    ((l.map fun x => if key x == k then b else x).map
        fun x => if key x == k then b else x) =
      l.map fun x => if key x == k then b else x := by
  rw [List.map_map]
  apply List.map_congr_left
  intro x _
  show (if key (if key x == k then b else x) == k then b
        else if key x == k then b else x) = if key x == k then b else x
  cases hxk : (key x == k) with
  | true =>
    simp only [hxk, if_true]
    rw [if_pos (beq_iff_eq.mpr hb)]
  | false =>
    simp only [hxk, Bool.false_eq_true, if_false]

theorem setCopy_setCopy {s : Store} {c : Copy} :
    setCopy (setCopy s c) c = setCopy s c := by
  show ({ setCopy s c with copies := _ } : Store) = setCopy s c
  have h := @repl_repl Copy Copy.id s.copies c c.id rfl
  unfold setCopy
  rw [h]

theorem recordSaveNew_eq {now : Nat} {r : BorrowRecord} {s : Store}
    (hviol : borrowedIndexViolation s (recordPreSave now r) = false) :
    recordSaveNew now r s =
      .ok (recordPreSave now r)
        (recordPostSave (recordPreSave now r)
          { s with records := s.records ++ [recordPreSave now r]
                   nextId := s.nextId + 1 }) := by
  unfold recordSaveNew
  dsimp only
  rw [hviol]
  simp

theorem findAvailableCopy_elim {s : Store} {invId : Option Nat} {c : Copy}
    (h : findAvailableCopy s invId = some c) :
    c ∈ s.copies ∧ some c.inventoryId = invId ∧
      c.status = CopyStatus.available := by
  unfold findAvailableCopy at h
  have hp := List.find?_some h
  have hm := List.mem_of_find?_eq_some h
  rw [Bool.and_eq_true] at hp
  exact ⟨hm, eq_of_beq hp.1, eq_of_beq hp.2⟩

theorem findCopy_self_of_nodup {s : Store} {c : Copy}
    (hnd : (s.copies.map Copy.id).Nodup) (hmem : c ∈ s.copies) :
    findCopy s c.id = some c :=
  find?_key_eq_self hnd hmem

/-- Effect of a successful approval, used for C4 and for the sequential
race analysis: the winning copy flips to `borrowed`, one record is
appended, the request is persisted as approved, everything else is
untouched, and the fresh available count drops by exactly one. -/
theorem approve_success (caller : Caller) (now reqId : Nat)
    (notes : Option String) (s : Store) (request : BorrowRequest)
    (availableCopy : Copy)
    (hreq : findRequest s reqId = some request)
    (hpend : request.status = RequestStatus.pending)
    (hauth : scopeDenied caller request.libraryId = false)
    (hcopy : findAvailableCopy s request.inventoryId = some availableCopy)
    (hnoloan : ∀ rec ∈ s.records,
      ¬(rec.copyId = availableCopy.id ∧ rec.status = LoanStatus.borrowed))
    (hndcopies : (s.copies.map Copy.id).Nodup) :
    ∃ request₁ s₁,
      updateBorrowRequest caller now reqId RequestStatus.approved notes s =
        .ok request₁ s₁ ∧
      request₁.id = request.id ∧
      request₁.status = RequestStatus.approved ∧
      request₁.decidedBy = some caller.userId ∧
      request₁.decidedAt = some now ∧
      request₁.copyId = some availableCopy.id ∧
      findRequest s₁ reqId = some request₁ ∧
      (∀ i, i ≠ reqId → findRequest s₁ i = findRequest s i) ∧
      s₁.requests.map BorrowRequest.id = s.requests.map BorrowRequest.id ∧
      s₁.records = s.records ++ [{
        id := s.nextId
        userId := request.userId
        libraryId := request.libraryId
        titleId := request.titleId
        inventoryId := availableCopy.inventoryId
        copyId := availableCopy.id
        borrowDate := now
        dueDate := now + loanPeriod
        returnDate := none
        status := LoanStatus.borrowed
        approvedBy := caller.userId
        fees := { lateFee := 0, damageFee := 0, currency := "USD" } }] ∧
      s₁.nextId = s.nextId + 1 ∧
      findCopy s₁ availableCopy.id =
        some { availableCopy with status := CopyStatus.borrowed } ∧
      (∀ i, i ≠ availableCopy.id → findCopy s₁ i = findCopy s i) ∧
      s₁.copies.map Copy.id = s.copies.map Copy.id ∧
      countAvailableCopies s₁ availableCopy.inventoryId + 1 =
        countAvailableCopies s availableCopy.inventoryId ∧
      s₁.copies = s.copies.map (fun x =>
        if x.id == availableCopy.id
        then { availableCopy with status := CopyStatus.borrowed } else x) ∧
      (∀ inv, findInventory s availableCopy.inventoryId = some inv →
        (findInventory s₁ availableCopy.inventoryId).map Inventory.availableCopies =
          some (countAvailableCopies s₁ availableCopy.inventoryId) ∧
        (findInventory s₁ availableCopy.inventoryId).map Inventory.totalCopies =
          some (countCopies s₁ availableCopy.inventoryId)) := by
  obtain ⟨hmemc, hinvrel, havail⟩ := findAvailableCopy_elim hcopy
  obtain ⟨hmemr, hidr⟩ := findRequest_elim hreq
  obtain ⟨request₁, hreq₁def⟩ : ∃ r₁,
      ({ id := request.id
         userId := request.userId
         libraryId := request.libraryId
         titleId := request.titleId
         inventoryId := some availableCopy.inventoryId
         copyId := some availableCopy.id
         status := RequestStatus.approved
         requestedAt := request.requestedAt
         decidedAt := some now
         decidedBy := some caller.userId
         notes := match notes with
                  | some n => some n
                  | none => request.notes } : BorrowRequest) = r₁ := ⟨_, rfl⟩
  obtain ⟨lit, hlitdef⟩ : ∃ l, ({
      id := s.nextId
      userId := request.userId
      libraryId := request.libraryId
      titleId := request.titleId
      inventoryId := availableCopy.inventoryId
      copyId := availableCopy.id
      borrowDate := now
      dueDate := now + loanPeriod
      returnDate := none
      status := LoanStatus.borrowed
      approvedBy := caller.userId
      fees := { lateFee := 0, damageFee := 0, currency := "USD" } } : BorrowRecord) = l :=
    ⟨_, rfl⟩
  obtain ⟨c₁, hc₁def⟩ : ∃ c₁,
      ({ availableCopy with status := CopyStatus.borrowed } : Copy) = c₁ := ⟨_, rfl⟩
  have hreq₁id : request₁.id = request.id := by rw [← hreq₁def]
  have hc₁id : c₁.id = availableCopy.id := by rw [← hc₁def]
  have hc₁inv : c₁.inventoryId = availableCopy.inventoryId := by rw [← hc₁def]
  have hc₁st : c₁.status = CopyStatus.borrowed := by rw [← hc₁def]
  have hlitst : lit.status = LoanStatus.borrowed := by rw [← hlitdef]
  have hlitcopy : lit.copyId = availableCopy.id := by rw [← hlitdef]
  have hlitpre : recordPreSave now lit = lit := by
    unfold recordPreSave
    rw [if_neg]
    rw [← hlitdef]
    simp [loanPeriod]
  have hlitviol : borrowedIndexViolation s (recordPreSave now lit) = false := by
    rw [hlitpre]
    unfold borrowedIndexViolation
    rw [Bool.and_eq_false_iff]
    right
    rw [List.any_eq_false]
    intro x hx
    have hn := hnoloan x hx
    cases hA : (x.copyId == lit.copyId) with
    | false => simp [hA]
    | true =>
      cases hB : (x.status == LoanStatus.borrowed) with
      | false => simp [hB]
      | true =>
        exfalso
        apply hn
        constructor
        · have := eq_of_beq hA
          rw [this, hlitcopy]
        · exact eq_of_beq hB
  have hpost : recordPostSave lit
      { s with records := s.records ++ [lit]
               nextId := s.nextId + 1 } =
      setCopy { s with records := s.records ++ [lit]
                       nextId := s.nextId + 1 }
        { availableCopy with status := CopyStatus.borrowed } := by
    unfold recordPostSave
    rw [if_pos (by rw [hlitst]; rfl)]
    rw [hlitcopy]
    rw [show findCopy { s with records := s.records ++ [lit]
                               nextId := s.nextId + 1 } availableCopy.id =
        some availableCopy from findCopy_self_of_nodup hndcopies hmemc]
  have happ : updateBorrowRequest caller now reqId RequestStatus.approved notes s =
      .ok request₁
        (setRequest
          (updateCopyCounts availableCopy.inventoryId
            (updateCopyCounts availableCopy.inventoryId
              (setCopy { s with records := s.records ++ [lit]
                                nextId := s.nextId + 1 }
                { availableCopy with status := CopyStatus.borrowed })))
          request₁) := by
    unfold updateBorrowRequest
    rw [hreq]
    dsimp only
    rw [hpend]
    simp only [bne_self_eq_false, Bool.false_eq_true, if_false, hauth,
      beq_self_eq_true, if_true]
    rw [hcopy]
    dsimp only
    rw [hlitdef]
    rw [recordSaveNew_eq hlitviol]
    dsimp only
    rw [hlitpre]
    rw [← hinvrel]
    dsimp only
    rw [hpost]
    unfold copySaveExisting
    dsimp only
    rw [setCopy_setCopy]
    rw [hreq₁def]
  rw [hc₁def] at happ
  -- names for the intermediate stores
  obtain ⟨sIns, hsInsDef⟩ : ∃ t, ({ s with records := s.records ++ [lit]
                                           nextId := s.nextId + 1 } : Store) = t :=
    ⟨_, rfl⟩
  rw [hsInsDef] at happ
  have hsInsCopies : sIns.copies = s.copies := by rw [← hsInsDef]
  have hsInsRecords : sIns.records = s.records ++ [lit] := by rw [← hsInsDef]
  have hsInsRequests : sIns.requests = s.requests := by rw [← hsInsDef]
  have hsInsInvs : sIns.inventories = s.inventories := by rw [← hsInsDef]
  have hsInsNext : sIns.nextId = s.nextId + 1 := by rw [← hsInsDef]
  obtain ⟨sY, hsYDef⟩ : ∃ t, setCopy sIns c₁ = t := ⟨_, rfl⟩
  rw [hsYDef] at happ
  have hsYRecords : sY.records = s.records ++ [lit] := by
    rw [← hsYDef]
    exact hsInsRecords
  have hsYRequests : sY.requests = s.requests := by
    rw [← hsYDef]
    exact hsInsRequests
  have hsYNext : sY.nextId = s.nextId + 1 := by
    rw [← hsYDef]
    exact hsInsNext
  obtain ⟨sW, hsWDef⟩ : ∃ t, updateCopyCounts availableCopy.inventoryId
      (updateCopyCounts availableCopy.inventoryId sY) = t := ⟨_, rfl⟩
  rw [hsWDef] at happ
  have hsWCopies : sW.copies = sY.copies := by
    rw [← hsWDef, updateCopyCounts_copies, updateCopyCounts_copies]
  have hsWRecords : sW.records = sY.records := by
    rw [← hsWDef, updateCopyCounts_records, updateCopyCounts_records]
  have hsWRequests : sW.requests = sY.requests := by
    rw [← hsWDef, updateCopyCounts_requests, updateCopyCounts_requests]
  have hsWNext : sW.nextId = sY.nextId := by
    rw [← hsWDef, updateCopyCounts_nextId, updateCopyCounts_nextId]
  -- final store
  obtain ⟨sFin, hsFinDef⟩ : ∃ t, setRequest sW request₁ = t := ⟨_, rfl⟩
  rw [hsFinDef] at happ
  have hsFinCopies : sFin.copies = sY.copies := by
    rw [← hsFinDef]
    exact hsWCopies
  have hsFinRecords : sFin.records = s.records ++ [lit] := by
    rw [← hsFinDef]
    show sW.records = _
    rw [hsWRecords, hsYRecords]
  have hsFinInvs : sFin.inventories = sW.inventories := by
    rw [← hsFinDef]
    rfl
  have hsFinNext : sFin.nextId = s.nextId + 1 := by
    rw [← hsFinDef]
    show sW.nextId = _
    rw [hsWNext, hsYNext]
  refine ⟨request₁, sFin, happ, hreq₁id, by rw [← hreq₁def], by rw [← hreq₁def],
    by rw [← hreq₁def], by rw [← hreq₁def], ?_, ?_, ?_, ?_, ?_, ?_, ?_, ?_, ?_,
    ?_, ?_⟩
  · -- findRequest sFin reqId = some request₁
    have hx : findRequest (setRequest sW request₁) request₁.id = some request₁ :=
      findRequest_setRequest_self
        ⟨request, by rw [hsWRequests, hsYRequests]; exact hmemr, hreq₁id.symm⟩
    rw [hsFinDef] at hx
    rw [show request₁.id = reqId from hreq₁id.trans hidr] at hx
    exact hx
  · -- other requests untouched
    intro i hi
    have hx : findRequest (setRequest sW request₁) i = findRequest sW i :=
      findRequest_setRequest_ne
        (by rw [hreq₁id, hidr]; exact hi)
    rw [hsFinDef] at hx
    rw [hx]
    exact findRequest_congr (by rw [hsWRequests, hsYRequests]) i
  · -- request ids preserved
    have hx : (setRequest sW request₁).requests.map BorrowRequest.id =
        sW.requests.map BorrowRequest.id := map_key_repl rfl
    rw [hsFinDef] at hx
    rw [hx, hsWRequests, hsYRequests]
  · -- records appended
    rw [hsFinRecords, hlitdef]
  · exact hsFinNext
  · -- the claimed copy is now borrowed
    have hx : findCopy (setCopy sIns c₁) c₁.id = some c₁ :=
      findCopy_setCopy_self ⟨availableCopy, by rw [hsInsCopies]; exact hmemc, hc₁id.symm⟩
    rw [hsYDef] at hx
    rw [hc₁id] at hx
    rw [findCopy_congr hsFinCopies, hx, hc₁def]
  · -- all other copies untouched
    intro i hi
    have hx : findCopy (setCopy sIns c₁) i = findCopy sIns i :=
      findCopy_setCopy_ne (by rw [hc₁id]; exact hi)
    rw [hsYDef] at hx
    rw [findCopy_congr hsFinCopies, hx, findCopy_congr hsInsCopies]
  · -- copy ids preserved
    have hx : (setCopy sIns c₁).copies.map Copy.id = sIns.copies.map Copy.id :=
      map_key_repl (by rw [hc₁id])
    rw [hsYDef] at hx
    show sFin.copies.map Copy.id = _
    rw [hsFinCopies, hx, hsInsCopies]
  · -- fresh available count is one lower
    have hx := @countAvailable_setCopy sIns c₁ availableCopy
      availableCopy.inventoryId (by rw [hsInsCopies]; exact hndcopies)
      (by rw [hsInsCopies]; exact hmemc) hc₁id.symm
    rw [hsYDef] at hx
    rw [show (if availableCopy.inventoryId == availableCopy.inventoryId &&
          availableCopy.status == CopyStatus.available then 1 else 0) = 1 from
        by simp [havail]] at hx
    rw [show (if c₁.inventoryId == availableCopy.inventoryId &&
          c₁.status == CopyStatus.available then 1 else 0) = 0 from
        by simp [hc₁st]] at hx
    rw [countAvailable_congr hsFinCopies]
    rw [countAvailable_congr hsInsCopies] at hx
    omega
  · -- copies are the by-id replacement of the claimed copy
    rw [hsFinCopies, ← hsYDef, ← hc₁def]
    rw [show (setCopy sIns
        { availableCopy with status := CopyStatus.borrowed }).copies =
      sIns.copies.map (fun x => if x.id == availableCopy.id
        then { availableCopy with status := CopyStatus.borrowed } else x)
      from rfl]
    rw [hsInsCopies]
  · -- stored counts equal fresh counts
    intro inv hinv
    have hYinv : findInventory sY availableCopy.inventoryId = some inv := by
      rw [← hsYDef]
      rw [findInventory_congr (show (setCopy sIns c₁).inventories = s.inventories
        from by rw [show (setCopy sIns c₁).inventories = sIns.inventories from rfl,
          hsInsInvs])]
      exact hinv
    have hV := updateCopyCounts_findInventory_self hYinv
    have hW := updateCopyCounts_findInventory_self hV
    have hsFinInv : findInventory sFin availableCopy.inventoryId =
        findInventory sW availableCopy.inventoryId :=
      findInventory_congr hsFinInvs _
    rw [← hsWDef] at hsFinInv
    rw [hsFinInv, hW]
    have hVY : (updateCopyCounts availableCopy.inventoryId sY).copies = sY.copies :=
      updateCopyCounts_copies _ _
    constructor
    · rw [countAvailable_congr hsFinCopies, countAvailable_congr hVY]
      rfl
    · rw [countCopies_congr hsFinCopies, countCopies_congr hVY]
      rfl

/-- C4: a successful `decide(approved)` on a pending request with an
available copy persists the request as `approved` with decider and
decision time, appends exactly one new `borrowed` record approved by the
decider and due `loanPeriod` after its borrow date on the claimed copy,
flips exactly that one copy from `available` to `borrowed`, and recomputes
the inventory's `availableCopies` to one lower than its in-sync stored
value. -/
theorem c4_approve_success_effects (caller : Caller) (now reqId : Nat)
    (notes : Option String) (s : Store) (request : BorrowRequest)
    (availableCopy : Copy) (inv : Inventory)
    (hreq : findRequest s reqId = some request)
    (hpend : request.status = RequestStatus.pending)
    (hauth : scopeDenied caller request.libraryId = false)
    (hcopy : findAvailableCopy s request.inventoryId = some availableCopy)
    (hnoloan : ∀ rec ∈ s.records,
      ¬(rec.copyId = availableCopy.id ∧ rec.status = LoanStatus.borrowed))
    (hndcopies : (s.copies.map Copy.id).Nodup)
    (hinv : findInventory s availableCopy.inventoryId = some inv)
    (hsync : inv.availableCopies =
      countAvailableCopies s availableCopy.inventoryId) :
    ∃ request₁ s₁,
      updateBorrowRequest caller now reqId RequestStatus.approved notes s =
        .ok request₁ s₁ ∧
      findRequest s₁ reqId = some request₁ ∧
      request₁.status = RequestStatus.approved ∧
      request₁.decidedBy = some caller.userId ∧
      request₁.decidedAt = some now ∧
      (∃ rec, s₁.records = s.records ++ [rec] ∧
        rec.status = LoanStatus.borrowed ∧
        rec.approvedBy = caller.userId ∧
        rec.borrowDate = now ∧
        rec.dueDate = rec.borrowDate + loanPeriod ∧
        rec.copyId = availableCopy.id) ∧
      availableCopy.status = CopyStatus.available ∧
      findCopy s₁ availableCopy.id =
        some { availableCopy with status := CopyStatus.borrowed } ∧
      (∀ i, i ≠ availableCopy.id → findCopy s₁ i = findCopy s i) ∧
      (findInventory s₁ availableCopy.inventoryId).map Inventory.availableCopies =
        some (countAvailableCopies s₁ availableCopy.inventoryId) ∧
      countAvailableCopies s₁ availableCopy.inventoryId + 1 =
        inv.availableCopies := by
  obtain ⟨request₁, s₁, happ, hrid, hrst, hrdb, hrda, hrcp, hfreq, hfreqne,
    hreqids, hrecords, hnext, hfcopy, hfcopyne, hcopyids, hcount, hrepl,
    hinvs⟩ :=
    approve_success caller now reqId notes s request availableCopy hreq hpend
      hauth hcopy hnoloan hndcopies
  have havail := (findAvailableCopy_elim hcopy).2.2
  refine ⟨request₁, s₁, happ, hfreq, hrst, hrdb, hrda,
    ⟨_, hrecords, rfl, rfl, rfl, rfl, rfl⟩, havail, hfcopy, hfcopyne,
    (hinvs inv hinv).1, ?_⟩
  rw [hsync]
  exact hcount

/-- C4 witness: the theorem applied to the concrete store with pending
request 20 and one available copy 10 under the in-sync inventory 1. -/
theorem c4_witness :
    findRequest exC9Store 20 = some (exRequest 20) ∧
    (exRequest 20).status = RequestStatus.pending ∧
    scopeDenied exAdmin (exRequest 20).libraryId = false ∧
    findAvailableCopy exC9Store (exRequest 20).inventoryId =
      some (exCopy 10 CopyStatus.available) ∧
    (exC9Store.copies.map Copy.id).Nodup ∧
    findInventory exC9Store (exCopy 10 CopyStatus.available).inventoryId =
      some (exInventory 1 1) ∧
    (exInventory 1 1).availableCopies =
      countAvailableCopies exC9Store (exCopy 10 CopyStatus.available).inventoryId ∧
    (∃ request₁ s₁,
      updateBorrowRequest exAdmin 1000 20 RequestStatus.approved none exC9Store =
        .ok request₁ s₁ ∧
      findRequest s₁ 20 = some request₁ ∧
      request₁.status = RequestStatus.approved ∧
      request₁.decidedBy = some exAdmin.userId ∧
      request₁.decidedAt = some 1000 ∧
      (∃ rec, s₁.records = exC9Store.records ++ [rec] ∧
        rec.status = LoanStatus.borrowed ∧
        rec.approvedBy = exAdmin.userId ∧
        rec.borrowDate = 1000 ∧
        rec.dueDate = rec.borrowDate + loanPeriod ∧
        rec.copyId = (exCopy 10 CopyStatus.available).id) ∧
      (exCopy 10 CopyStatus.available).status = CopyStatus.available ∧
      findCopy s₁ (exCopy 10 CopyStatus.available).id =
        some { exCopy 10 CopyStatus.available with status := CopyStatus.borrowed } ∧
      (∀ i, i ≠ (exCopy 10 CopyStatus.available).id →
        findCopy s₁ i = findCopy exC9Store i) ∧
      (findInventory s₁ (exCopy 10 CopyStatus.available).inventoryId).map
          Inventory.availableCopies =
        some (countAvailableCopies s₁
          (exCopy 10 CopyStatus.available).inventoryId) ∧
      countAvailableCopies s₁ (exCopy 10 CopyStatus.available).inventoryId + 1 =
        (exInventory 1 1).availableCopies) :=
  ⟨by decide, by decide, by decide, by decide, by decide, by decide, by decide,
   c4_approve_success_effects exAdmin 1000 20 none exC9Store (exRequest 20)
     (exCopy 10 CopyStatus.available) (exInventory 1 1)
     (by decide) (by decide) (by decide) (by decide)
     (by intro rec hrec; cases hrec) (by decide) (by decide) (by decide)⟩

theorem pairwise_noDouble_repl {l : List BorrowRecord} {r : BorrowRecord}
    (hnd : (l.map BorrowRecord.id).Nodup)
    (hinv : l.Pairwise (fun r₁ r₂ =>
      ¬(r₁.status = LoanStatus.borrowed ∧ r₂.status = LoanStatus.borrowed ∧
        r₁.copyId = r₂.copyId)))
    (hsafe : r.status = LoanStatus.borrowed →
      ∀ x ∈ l, x.id ≠ r.id →
        ¬(x.copyId = r.copyId ∧ x.status = LoanStatus.borrowed)) :
    (l.map fun x => if x.id == r.id then r else x).Pairwise (fun r₁ r₂ =>
      ¬(r₁.status = LoanStatus.borrowed ∧ r₂.status = LoanStatus.borrowed ∧
        r₁.copyId = r₂.copyId)) := by
  induction l with
  | nil => exact List.Pairwise.nil
  | cons x t ih =>
    obtain ⟨hx, ht⟩ := List.pairwise_cons.mp hinv
    have hndt := (List.nodup_cons.mp hnd).2
    have hxid := (List.nodup_cons.mp hnd).1
    simp only [List.map_cons]
    refine List.pairwise_cons.mpr ⟨?_, ?_⟩
    · intro y' hy'
      obtain ⟨y, hy, hfy⟩ := List.mem_map.mp hy'
      subst hfy
      by_cases hxr : (x.id == r.id) = true
      · have hxidr : x.id = r.id := eq_of_beq hxr
        have hyid : y.id ≠ r.id := by
          intro hc
          apply hxid
          rw [← hxidr] at hc
          rw [← hc]
          exact List.mem_map_of_mem BorrowRecord.id hy
        rw [if_pos hxr, if_neg (by simp [hyid])]
        intro ⟨hrb, hyb, hcpy⟩
        exact hsafe hrb y (List.mem_cons_of_mem x hy) hyid ⟨hcpy.symm, hyb⟩
      · rw [if_neg hxr]
        by_cases hyr : (y.id == r.id) = true
        · rw [if_pos hyr]
          intro ⟨hxb, hrb, hcpy⟩
          exact hsafe hrb x (List.mem_cons_self x t)
            (by simpa using hxr) ⟨hcpy, hxb⟩
        · rw [if_neg hyr]
          exact hx y hy
    · exact ih hndt ht (fun hrb x hxt hne =>
        hsafe hrb x (List.mem_cons_of_mem _ hxt) hne)

theorem pairwise_noDouble_append {l : List BorrowRecord} {r : BorrowRecord}
    (hinv : l.Pairwise (fun r₁ r₂ =>
      ¬(r₁.status = LoanStatus.borrowed ∧ r₂.status = LoanStatus.borrowed ∧
        r₁.copyId = r₂.copyId)))
    (hsafe : r.status = LoanStatus.borrowed →
      ∀ x ∈ l, ¬(x.copyId = r.copyId ∧ x.status = LoanStatus.borrowed)) :
    (l ++ [r]).Pairwise (fun r₁ r₂ =>
      ¬(r₁.status = LoanStatus.borrowed ∧ r₂.status = LoanStatus.borrowed ∧
        r₁.copyId = r₂.copyId)) := by
  rw [List.pairwise_append]
  refine ⟨hinv, List.pairwise_singleton _ _, ?_⟩
  intro a ha b hb
  rw [List.mem_singleton] at hb
  subst hb
  intro ⟨hab, hbb, hcpy⟩
  exact hsafe hbb a ha ⟨hcpy, hab⟩

theorem forall_key_lt_repl {α : Type} {key : α → Nat} {l : List α} {b : α}
    {k n : Nat} (hb : key b = k) (h : ∀ x ∈ l, key x < n) :
    ∀ x' ∈ (l.map fun x => if key x == k then b else x), key x' < n := by
  intro x' hx'
  obtain ⟨x, hx, rfl⟩ := List.mem_map.mp hx'
  by_cases hxk : (key x == k) = true
  · rw [if_pos hxk, hb, ← eq_of_beq hxk]
    exact h x hx
  · rw [if_neg hxk]
    exact h x hx

theorem wf_setCopy {s : Store} (c : Copy) (h : StoreWF s) :
    StoreWF (setCopy s c) := by
  obtain ⟨h1, h2, h3, h4, h5⟩ := h
  refine ⟨?_, h2, h3, h4, h5⟩
  rw [show (setCopy s c).copies.map Copy.id = s.copies.map Copy.id from
    map_key_repl rfl]
  exact h1

theorem wf_setInventory {s : Store} (i : Inventory) (h : StoreWF s) :
    StoreWF (setInventory s i) := by
  obtain ⟨h1, h2, h3, h4, h5⟩ := h
  refine ⟨h1, ?_, h3, h4, h5⟩
  rw [show (setInventory s i).inventories.map Inventory.id =
    s.inventories.map Inventory.id from map_key_repl rfl]
  exact h2

theorem wf_setRequest {s : Store} (r : BorrowRequest) (h : StoreWF s) :
    StoreWF (setRequest s r) := by
  obtain ⟨h1, h2, h3, h4, h5⟩ := h
  refine ⟨h1, h2, ?_, h4, h5⟩
  rw [show (setRequest s r).requests.map BorrowRequest.id =
    s.requests.map BorrowRequest.id from map_key_repl rfl]
  exact h3

theorem wf_setRecord {s : Store} (r : BorrowRecord) (h : StoreWF s) :
    StoreWF (setRecord s r) := by
  obtain ⟨h1, h2, h3, h4, h5⟩ := h
  refine ⟨h1, h2, h3, ?_, ?_⟩
  · rw [show (setRecord s r).records.map BorrowRecord.id =
      s.records.map BorrowRecord.id from map_key_repl rfl]
    exact h4
  · exact forall_key_lt_repl rfl h5

theorem wf_updateCopyCounts {s : Store} (i : Nat) (h : StoreWF s) :
    StoreWF (updateCopyCounts i s) := by
  unfold updateCopyCounts
  cases findInventory s i with
  | none => exact h
  | some inv =>
    dsimp only
    exact wf_setInventory _ h

theorem wf_copySaveExisting {s : Store} (c : Copy) (h : StoreWF s) :
    StoreWF (copySaveExisting c s) :=
  wf_updateCopyCounts _ (wf_setCopy _ h)

theorem wf_recordPostSave {s : Store} (r : BorrowRecord) (h : StoreWF s) :
    StoreWF (recordPostSave r s) := by
  unfold recordPostSave
  split
  · split
    · exact wf_setCopy _ h
    · exact h
  · split
    · split
      · exact wf_setCopy _ h
      · exact h
    · exact h

theorem wf_insertRecord {s : Store} {r : BorrowRecord} (h : StoreWF s)
    (hid : r.id = s.nextId) :
    StoreWF { s with records := s.records ++ [r], nextId := s.nextId + 1 } := by
  obtain ⟨h1, h2, h3, h4, h5⟩ := h
  refine ⟨h1, h2, h3, ?_, ?_⟩
  · show ((s.records ++ [r]).map BorrowRecord.id).Nodup
    rw [List.map_append]
    rw [List.nodup_append]
    refine ⟨h4, by simp, ?_⟩
    intro a ha hb
    simp only [List.map_cons, List.map_nil, List.mem_singleton] at hb
    subst hb
    obtain ⟨x, hx, hxa⟩ := List.mem_map.mp ha
    have := h5 x hx
    omega
  · intro x hx
    show x.id < s.nextId + 1
    rcases List.mem_append.mp hx with hx | hx
    · have := h5 x hx
      omega
    · rw [List.mem_singleton] at hx
      subst hx
      omega

theorem nd_congr {s s' : Store} (h : s'.records = s.records)
    (hnd : NoDoubleBorrow s) : NoDoubleBorrow s' := by
  unfold NoDoubleBorrow at *
  rw [h]
  exact hnd

theorem violation_false_safe {s : Store} {r : BorrowRecord}
    (hviol : borrowedIndexViolation s r = false) :
    r.status = LoanStatus.borrowed →
      ∀ x ∈ s.records, x.id ≠ r.id →
        ¬(x.copyId = r.copyId ∧ x.status = LoanStatus.borrowed) := by
  intro hrb x hx hne ⟨hcp, hxb⟩
  unfold borrowedIndexViolation at hviol
  rw [Bool.and_eq_false_iff] at hviol
  rcases hviol with hviol | hviol
  · rw [hrb] at hviol
    simp at hviol
  · rw [List.any_eq_false] at hviol
    apply hviol x hx
    simp [hne, hcp, hxb]

theorem nd_setRecord {s : Store} {r : BorrowRecord}
    (hnd : (s.records.map BorrowRecord.id).Nodup)
    (hviol : borrowedIndexViolation s r = false)
    (h : NoDoubleBorrow s) : NoDoubleBorrow (setRecord s r) :=
  pairwise_noDouble_repl hnd h (violation_false_safe hviol)

theorem nd_insertRecord {s : Store} {r : BorrowRecord}
    (hfresh : ∀ x ∈ s.records, x.id ≠ r.id)
    (hviol : borrowedIndexViolation s r = false)
    (h : NoDoubleBorrow s) :
    NoDoubleBorrow { s with records := s.records ++ [r], nextId := s.nextId + 1 } :=
  pairwise_noDouble_append h (fun hrb x hx =>
    violation_false_safe hviol hrb x hx (hfresh x hx))

theorem inv_setCopy {s : Store} (c : Copy) (h : Inv s) : Inv (setCopy s c) :=
  ⟨wf_setCopy c h.1, nd_congr rfl h.2⟩

theorem inv_setRequest {s : Store} (r : BorrowRequest) (h : Inv s) :
    Inv (setRequest s r) :=
  ⟨wf_setRequest r h.1, nd_congr rfl h.2⟩

theorem inv_updateCopyCounts {s : Store} (i : Nat) (h : Inv s) :
    Inv (updateCopyCounts i s) :=
  ⟨wf_updateCopyCounts i h.1, nd_congr (updateCopyCounts_records i s) h.2⟩

theorem inv_copySaveExisting {s : Store} (c : Copy) (h : Inv s) :
    Inv (copySaveExisting c s) :=
  ⟨wf_copySaveExisting c h.1, nd_congr (copySaveExisting_records c s) h.2⟩

theorem inv_recordPostSave {s : Store} (r : BorrowRecord) (h : Inv s) :
    Inv (recordPostSave r s) :=
  ⟨wf_recordPostSave r h.1, nd_congr (recordPostSave_records r s) h.2⟩

theorem inv_recordSaveExisting {s : Store} (now : Nat) (r : BorrowRecord)
    (h : Inv s) : Inv ((recordSaveExisting now r s).store) := by
  unfold recordSaveExisting
  dsimp only
  split
  · exact h
  · next hviol =>
    apply inv_recordPostSave
    refine ⟨wf_setRecord _ h.1, nd_setRecord h.1.2.2.2.1 ?_ h.2⟩
    exact Bool.not_eq_true _ ▸ (Bool.of_not_eq_true hviol)

theorem inv_recordSaveNew {s : Store} (now : Nat) {r : BorrowRecord}
    (hid : r.id = s.nextId) (h : Inv s) :
    Inv ((recordSaveNew now r s).store) := by
  unfold recordSaveNew
  dsimp only
  split
  · exact h
  · next hviol =>
    apply inv_recordPostSave
    have hid1 : (recordPreSave now r).id = s.nextId := by
      rw [recordPreSave_id]
      exact hid
    have hfresh : ∀ x ∈ s.records, x.id ≠ (recordPreSave now r).id := by
      intro x hx
      have := h.1.2.2.2.2 x hx
      omega
    refine ⟨wf_insertRecord h.1 hid1, nd_insertRecord hfresh ?_ h.2⟩
    exact Bool.not_eq_true _ ▸ (Bool.of_not_eq_true hviol)

theorem inv_match_tail {o : Outcome BorrowRecord} (v : BorrowRequest)
    (g : Store → Store) (hg : ∀ t, Inv t → Inv (g t)) (h : Inv o.store) :
    Inv (Outcome.store (match o with
      | .fail e s1 => Outcome.fail e s1
      | .ok _ s1 => Outcome.ok v (g s1))) := by
  cases o with
  | fail e s1 => exact h
  | ok r s1 => exact hg s1 h

theorem inv_updateBorrowRequest {s : Store} (caller : Caller)
    (now reqId : Nat) (status : RequestStatus) (notes : Option String)
    (h : Inv s) :
    Inv ((updateBorrowRequest caller now reqId status notes s).store) := by
  unfold updateBorrowRequest
  cases findRequest s reqId with
  | none => exact h
  | some request =>
    dsimp only
    split
    · exact h
    · split
      · exact h
      · split
        · cases findAvailableCopy s request.inventoryId with
          | none => exact h
          | some availableCopy =>
            dsimp only
            refine inv_match_tail _ _ ?_ ?_
            · intro t ht
              apply inv_setRequest
              cases request.inventoryId with
              | none => exact inv_copySaveExisting _ ht
              | some i => exact inv_updateCopyCounts i (inv_copySaveExisting _ ht)
            · exact inv_recordSaveNew now rfl h
        · exact inv_setRequest _ h

theorem inv_returnBook {s : Store} (caller : Caller) (now recId : Nat)
    (fees : Option FeesPatch) (h : Inv s) :
    Inv ((returnBook caller now recId fees s).store) := by
  unfold returnBook
  cases findRecord s recId with
  | none => exact h
  | some record =>
    dsimp only
    split
    · exact h
    · split
      · exact h
      · apply inv_recordSaveExisting
        cases findCopy s record.copyId with
        | none => exact h
        | some copy =>
          exact inv_updateCopyCounts _ (inv_copySaveExisting _ h)

theorem inv_updateBorrowRecord {s : Store} (caller : Caller) (now recId : Nat)
    (status : LoanStatus) (fees : Option FeesPatch) (h : Inv s) :
    Inv ((updateBorrowRecord caller now recId status fees s).store) := by
  unfold updateBorrowRecord
  cases findRecord s recId with
  | none => exact h
  | some record =>
    dsimp only
    split
    · exact h
    · repeat' split
      all_goals
        first
          | exact h
          | (apply inv_recordSaveExisting
             repeat' split
             all_goals
               first
                 | exact h
                 | exact inv_updateCopyCounts _ (inv_copySaveExisting _ h)
                 | exact inv_updateCopyCounts _ (inv_copySaveExisting _
                     (inv_updateCopyCounts _ (inv_copySaveExisting _ h))))

theorem inv_updateCopy {s : Store} (copyId : Nat) (u : CopyUpdates)
    (h : Inv s) : Inv ((updateCopy copyId u s).store) := by
  unfold updateCopy
  dsimp only
  split
  · split
    · exact h
    · split
      · exact h
      · split
        · exact h
        · exact inv_setCopy _ h
  · split
    · exact h
    · exact inv_setCopy _ h

theorem inv_deleteCopy {s : Store} (copyId : Nat) (h : Inv s) :
    Inv ((deleteCopy copyId s).store) := by
  unfold deleteCopy
  cases findCopy s copyId with
  | none => exact h
  | some copy =>
    dsimp only
    split
    · exact h
    · obtain ⟨⟨h1, h2, h3, h4, h5⟩, hnd⟩ := h
      refine ⟨⟨?_, h2, h3, h4, h5⟩, nd_congr rfl hnd⟩
      show ((s.copies.filter _).map Copy.id).Nodup
      exact h1.sublist (List.Sublist.map _ (List.filter_sublist _))

/-- C3: the at-most-one-active-loan-per-copy invariant holds in every
state reachable from a well-formed store satisfying it, through any mix of
the public mutating operations; the partial unique index on
`(copyId, 'borrowed')` blocks every save that would violate it. -/
theorem c3_at_most_one_borrowed_per_copy (s₀ s : Store)
    (hwf : StoreWF s₀) (hnd : NoDoubleBorrow s₀) (hr : Reachable s₀ s) :
    NoDoubleBorrow s := by
  have hInv : Inv s := by
    induction hr with
    | refl => exact ⟨hwf, hnd⟩
    | decideRequest caller now reqId status notes _ ih =>
      exact inv_updateBorrowRequest caller now reqId status notes ih
    | returnLoan caller now recId fees _ ih =>
      exact inv_returnBook caller now recId fees ih
    | recordUpdate caller now recId status fees _ ih =>
      exact inv_updateBorrowRecord caller now recId status fees ih
    | copyUpdate copyId u _ ih =>
      exact inv_updateCopy copyId u ih
    | copyDelete copyId _ ih =>
      exact inv_deleteCopy copyId ih
  exact hInv.2

/-- C3 witness: the invariant carried across a concrete approval step. -/
theorem c3_witness :
    StoreWF exC9Store ∧ NoDoubleBorrow exC9Store ∧
    NoDoubleBorrow
      ((updateBorrowRequest exAdmin 1000 20 RequestStatus.approved none
        exC9Store).store) :=
  ⟨by unfold StoreWF; decide, by unfold NoDoubleBorrow; decide,
   c3_at_most_one_borrowed_per_copy exC9Store _ (by unfold StoreWF; decide)
     (by unfold NoDoubleBorrow; decide)
     (Reachable.decideRequest exAdmin 1000 20 RequestStatus.approved none
       (Reachable.refl exC9Store))⟩

/-- Membership in a replace-by-key map: the element is either the
replacement or an untouched original with a different key. -/
theorem mem_repl_cases {α : Type} {key : α → Nat} {l : List α} {b : α}
    {k : Nat} {x' : α}
    (h : x' ∈ (l.map fun x => if key x == k then b else x)) :
    x' = b ∨ (x' ∈ l ∧ key x' ≠ k) := by
  obtain ⟨x, hx, rfl⟩ := List.mem_map.mp h
  by_cases hxk : (key x == k) = true
  · left
    rw [if_pos hxk]
  · right
    rw [if_neg hxk]
    exact ⟨hx, by simpa using hxk⟩

/-- `findAvailableCopy` returns `none` exactly when the inventory has no
available copies. -/
theorem findAvailableCopy_none_iff {s : Store} {inv : Nat} :
    findAvailableCopy s (some inv) = none ↔
      countAvailableCopies s inv = 0 := by
  unfold findAvailableCopy countAvailableCopies
  rw [List.find?_eq_none, List.length_eq_zero, List.filter_eq_nil_iff]
  constructor
  · intro h x hx
    have := h x hx
    simpa using this
  · intro h x hx
    have := h x hx
    simpa using this

/-- Unfolding lemma for the sequential decide fold. -/
theorem decideAll_cons (caller : Caller) (now i : Nat) (rest : List Nat)
    (s : Store) :
    decideAll caller now (i :: rest) s =
      ((updateBorrowRequest caller now i RequestStatus.approved none s) ::
        (decideAll caller now rest
          (updateBorrowRequest caller now i RequestStatus.approved none
            s).store).1,
       (decideAll caller now rest
         (updateBorrowRequest caller now i RequestStatus.approved none
           s).store).2) := by
  conv_lhs => unfold decideAll

/-- `countOk` over a cons. -/
theorem countOk_cons (o : Outcome BorrowRequest)
    (outs : List (Outcome BorrowRequest)) :
    countOk (o :: outs) = (if o.isOk then 1 else 0) + countOk outs := by
  unfold countOk
  rw [List.filter_cons]
  cases h : o.isOk with
  | true => simp [h, Nat.add_comm]
  | false => simp [h]

/-- C9 (amended): when the N `decide(approved)` calls are processed
sequentially against pending requests bound to the same inventory,
exactly `min N M` succeed (where `M` is the number of available copies)
and every unsuccessful call fails with `InsufficientAvailabilityError`.
The concurrency half of the original claim is refuted separately by the
interleaving counterexample. -/
theorem c9_sequential_decides_amended (caller : Caller) (now : Nat)
    (ids : List Nat) (s : Store) (inv : Nat)
    (hrole : caller.role = Role.superadmin)
    (hids : ids.Nodup)
    (hpend : ∀ i ∈ ids, ∃ req, findRequest s i = some req ∧
      req.status = RequestStatus.pending ∧ req.inventoryId = some inv)
    (hnoloan : ∀ rec ∈ s.records, rec.status = LoanStatus.borrowed →
      ∀ c ∈ s.copies, c.id = rec.copyId →
        ¬(c.inventoryId = inv ∧ c.status = CopyStatus.available))
    (hndcopies : (s.copies.map Copy.id).Nodup) :
    countOk (decideAll caller now ids s).1 =
      min ids.length (countAvailableCopies s inv) ∧
    (∀ out ∈ (decideAll caller now ids s).1, out.isOk = false →
      ∃ s', out = .fail .noAvailableCopies s') := by
  revert hids hpend hnoloan hndcopies
  induction ids generalizing s with
  | nil =>
    intro hids hpend hnoloan hndcopies
    constructor
    · simp [decideAll, countOk]
    · intro out hout
      simp [decideAll] at hout
  | cons i rest ih =>
    intro hids hpend hnoloan hndcopies
    obtain ⟨req, hreq, hreqpend, hreqinv⟩ := hpend i (List.mem_cons_self i rest)
    have hauth : scopeDenied caller req.libraryId = false := by
      unfold scopeDenied
      rw [hrole]
      rfl
    by_cases hM : countAvailableCopies s inv = 0
    · have hnone : findAvailableCopy s req.inventoryId = none := by
        rw [hreqinv]
        exact findAvailableCopy_none_iff.mpr hM
      have happ := approve_insufficient caller now i none s req hreq hreqpend
        hauth hnone
      rw [decideAll_cons, happ]
      dsimp only [Outcome.store]
      obtain ⟨ih1, ih2⟩ := ih s (List.nodup_cons.mp hids).2
        (fun j hj => hpend j (List.mem_cons_of_mem i hj)) hnoloan hndcopies
      constructor
      · rw [countOk_cons, ih1]
        simp only [Outcome.isOk, List.length_cons, Bool.false_eq_true,
          if_false]
        omega
      · intro out hout hfail
        rcases List.mem_cons.mp hout with rfl | hout
        · exact ⟨s, rfl⟩
        · exact ih2 out hout hfail
    · have hnotnone : findAvailableCopy s (some inv) ≠ none := fun hc =>
        hM (findAvailableCopy_none_iff.mp hc)
      obtain ⟨copy, hcopy0⟩ := Option.ne_none_iff_exists'.mp hnotnone
      have hcopy : findAvailableCopy s req.inventoryId = some copy := by
        rw [hreqinv]
        exact hcopy0
      obtain ⟨hmemc, hinveq0, havail⟩ := findAvailableCopy_elim hcopy
      have hinveq : copy.inventoryId = inv := by
        rw [hreqinv] at hinveq0
        exact Option.some.inj hinveq0
      have hnoloan1 : ∀ rec ∈ s.records,
          ¬(rec.copyId = copy.id ∧ rec.status = LoanStatus.borrowed) := by
        intro rec hrec ⟨hcp, hst⟩
        exact hnoloan rec hrec hst copy hmemc hcp.symm ⟨hinveq, havail⟩
      obtain ⟨request₁, s₁, happ, hrid, hrst, hrdb, hrda, hrcp, hfreq, hfreqne,
        hreqids, hrecords, hnext, hfcopy, hfcopyne, hcopyids, hcount, hrepl,
        hinvs⟩ :=
        approve_success caller now i none s req copy hreq hreqpend hauth hcopy
          hnoloan1 hndcopies
      rw [decideAll_cons, happ]
      dsimp only [Outcome.store]
      have hcount' : countAvailableCopies s₁ inv + 1 =
          countAvailableCopies s inv := by
        rw [← hinveq]
        exact hcount
      have hpend' : ∀ j ∈ rest, ∃ rq, findRequest s₁ j = some rq ∧
          rq.status = RequestStatus.pending ∧ rq.inventoryId = some inv := by
        intro j hj
        obtain ⟨rq, hq1, hq2, hq3⟩ := hpend j (List.mem_cons_of_mem i hj)
        refine ⟨rq, ?_, hq2, hq3⟩
        rw [hfreqne j (by
          intro hc
          subst hc
          exact (List.nodup_cons.mp hids).1 hj)]
        exact hq1
      have hnoloan' : ∀ rec ∈ s₁.records, rec.status = LoanStatus.borrowed →
          ∀ c ∈ s₁.copies, c.id = rec.copyId →
            ¬(c.inventoryId = inv ∧ c.status = CopyStatus.available) := by
        intro rec hrec hrb c hc hcid ⟨hcinv, hcav⟩
        rw [hrepl] at hc
        rcases mem_repl_cases hc with rfl | ⟨hcmem, hcne⟩
        · exact absurd hcav (by simp)
        · rw [hrecords] at hrec
          rcases List.mem_append.mp hrec with hrec | hrec
          · exact hnoloan rec hrec hrb c hcmem hcid ⟨hcinv, hcav⟩
          · rw [List.mem_singleton] at hrec
            subst hrec
            apply hcne
            rw [hcid]
      have hnd' : (s₁.copies.map Copy.id).Nodup := by
        rw [hcopyids]
        exact hndcopies
      obtain ⟨ih1, ih2⟩ := ih s₁ (List.nodup_cons.mp hids).2 hpend' hnoloan' hnd'
      constructor
      · rw [countOk_cons, ih1]
        simp only [Outcome.isOk, List.length_cons, if_true]
        omega
      · intro out hout hfail
        rcases List.mem_cons.mp hout with rfl | hout
        · simp [Outcome.isOk] at hfail
        · exact ih2 out hout hfail

/-- C9 witness: two sequential approvals over a single available copy;
one succeeds and the other fails with `InsufficientAvailabilityError`. -/
theorem c9_witness :
    countOk (decideAll exAdmin 1000 [20, 21] exC9Store).1 =
      min ([20, 21] : List Nat).length (countAvailableCopies exC9Store 1) ∧
    (∀ out ∈ (decideAll exAdmin 1000 [20, 21] exC9Store).1,
      out.isOk = false → ∃ s', out = .fail .noAvailableCopies s') :=
  c9_sequential_decides_amended exAdmin 1000 [20, 21] exC9Store 1
    rfl
    (by decide)
    (by
      intro i hi
      rcases List.mem_cons.mp hi with rfl | hi
      · exact ⟨exRequest 20, rfl, rfl, rfl⟩
      · rcases List.mem_cons.mp hi with rfl | hi
        · exact ⟨exRequest 21, rfl, rfl, rfl⟩
        · cases hi)
    (by
      intro rec hrec
      simp [exC9Store] at hrec)
    (by decide)

end Librarian
